import Mathlib

/-!
Shallow embedding of the rust_genetic_optimizer core (src/error.rs,
src/genetic_engine.rs, src/genetic_engine_builder.rs, src/genetics.rs,
src/island.rs, src/island_engine.rs, src/world.rs, src/world_builder.rs).

Machine integers (u8, u64, usize) are modelled as Nat; u8 overflow and the
panicking operations (`unwrap` on None, `x % 0`, `Vec::remove` out of range,
usize subtraction underflow) are modelled by returning `none` from the
corresponding Lean function.  The external capabilities (the rand crate's
StdRng and shuffle, the user-supplied Genetics and IslandEngine traits, and
the SelectionCurve type whose declaration is not among the provided sources)
are modelled as abstract function records threaded through an explicit state
type. -/

/-- GeneticError mirrors the error enum of src/error.rs. -/
inductive GeneticError where
  | MissingGenetics
  | InvalidMutationRate (rate : Nat)
  | InvalidCrossoverRate (rate : Nat)
  | InvalidPoints (points : Nat)
  | InvalidMutationPoints
  | InvalidCrossoverPoints
  | InvalidIndividualsPerIsland
  | InvalidEliteCount
  | InvalidIndividualPoints
  | InvalidMigrationCount
  | MissingGeneticEngine
deriving DecidableEq, Repr

/-- Rng models the rand crate's StdRng interface as used by the core: a draw
of one u8 (`rng.random::<u8>()`), a draw from `random_range(0..n)`, and the
SliceRandom shuffle used by `random_island_order`.  The rng state is an
abstract type `s`; every draw returns the value together with the successor
state. -/
structure Rng (σ : Type) where
  byte : σ → Nat × σ
  range : σ → Nat → Nat × σ
  shuffleList : σ → List Nat → List Nat × σ

/-- Genetics mirrors the user-facing trait of src/genetics.rs; the rng is
threaded as explicit state. -/
structure Genetics (σ : Type) where
  random_individual : σ → Nat → Nat × σ
  mutate : σ → Nat → Nat → Nat × σ
  crossover : σ → Nat → Nat → Nat → Nat × σ

/-- Modelled from the spec: the SelectionCurve type is referenced by the
provided sources (island.rs calls `curve.pick_one_index(rng, max)` and
world_builder.rs names three curve constants) but its own declaration is not
among them.  Per the spec's external-interface contract a curve maps the rng
and a population size to one index in [0, populationSize); we model a curve
as an arbitrary state-threaded function and carry the in-range contract as an
explicit hypothesis (`CurveInRange`) where a proof needs it. -/
def SelectionCurve (σ : Type) : Type := σ → Nat → Nat × σ

/-- CurveInRange states the spec contract of SelectionCurve::pick_one_index:
the returned index lies in [0, populationSize) whenever the population is
non-empty. -/
def CurveInRange {σ : Type} (c : SelectionCurve σ) : Prop :=
  ∀ (s : σ) (max : Nat), 0 < max → (c s max).1 < max

/-- GeneticEngine mirrors the struct of src/genetic_engine.rs.  The StdRng is
modelled by the abstract state `state` together with the draw functions `rng`;
the u8 fields are Nats; the one u8 arithmetic operation performed on them,
the rate-sum addition inside rand_child, models its overflow as the abort
`none`, and success theorems carry the no-overflow bound as a hypothesis. -/
structure GeneticEngine (σ : Type) where
  rng : Rng σ
  state : σ
  mutation_rate : Nat
  crossover_rate : Nat
  max_mutation_points : Nat
  max_crossover_points : Nat
  max_individual_points : Nat
  genetics : Genetics σ

/-- GeneticEngineBuilder mirrors the struct of src/genetic_engine_builder.rs
with its Default values. -/
structure GeneticEngineBuilder (σ : Type) where
  seed : Option Nat := none
  mutation_rate : Nat := 1
  crossover_rate : Nat := 9
  max_mutation_points : Nat := 3
  max_crossover_points : Nat := 10
  max_individual_points : Nat := 100
  genetics : Option (Genetics σ) := none

/-- GeneticEngineBuilder.build mirrors src/genetic_engine_builder.rs:105-127.
The construction of the StdRng from the seed (or from entropy) is external
rand-crate behaviour, so the resulting initial rng state is taken as the
parameter `st` together with the draw functions `rngOps`. -/
def GeneticEngineBuilder.build {σ : Type} (b : GeneticEngineBuilder σ)
    (rngOps : Rng σ) (st : σ) : Except GeneticError (GeneticEngine σ) :=
  match b.genetics with
  | none => .error .MissingGenetics
  | some g =>
    if b.max_mutation_points < 1 ∧ 0 < b.mutation_rate then
      .error .InvalidMutationPoints
    else if b.max_crossover_points < 1 ∧ 0 < b.crossover_rate then
      .error .InvalidCrossoverPoints
    else if b.max_individual_points = 0 then
      .error .InvalidIndividualPoints
    else
      .ok { rng := rngOps, state := st,
            mutation_rate := b.mutation_rate,
            crossover_rate := b.crossover_rate,
            max_mutation_points := b.max_mutation_points,
            max_crossover_points := b.max_crossover_points,
            max_individual_points := b.max_individual_points,
            genetics := g }

/-- random_zero_to_n mirrors src/genetic_engine.rs:44-46:
`self.rng.random::<u8>() % n`.  The Rust expression `x % 0` is a division by
zero, which aborts the program; that case is modelled as `none`. -/
def GeneticEngine.random_zero_to_n {σ : Type} (e : GeneticEngine σ) (n : Nat) :
    Option (Nat × GeneticEngine σ) :=
  if n = 0 then none
  else
    let (b, s₁) := e.rng.byte e.state
    some (b % n, { e with state := s₁ })

/-- rand_individual mirrors src/genetic_engine.rs:49-52. -/
def GeneticEngine.rand_individual {σ : Type} (e : GeneticEngine σ) :
    Nat × GeneticEngine σ :=
  let (i, s₁) := e.genetics.random_individual e.state e.max_individual_points
  (i, { e with state := s₁ })

/-- rand_child mirrors src/genetic_engine.rs:56-68.  The source returns
`Result<u64, GeneticError>` but both branches return Ok; the failure modes
are (a) the u8 addition `self.mutation_rate + self.crossover_rate`
(src/genetic_engine.rs:57), which overflows when the sum exceeds 255 and
aborts under checked arithmetic — the same convention used for the usize
underflow in distances_to_next_island — and (b) the `% 0` abort inside
random_zero_to_n (reached when the sum is 0, or when the selected branch
has a zero point maximum).  Both aborts are modelled as `none`. -/
def GeneticEngine.rand_child {σ : Type} (e : GeneticEngine σ)
    (left right : Nat) : Option (Nat × GeneticEngine σ) :=
  if 255 < e.mutation_rate + e.crossover_rate then none
  else match e.random_zero_to_n (e.mutation_rate + e.crossover_rate) with
  | none => none
  | some (pick, e₁) =>
    if pick < e₁.mutation_rate then
      match e₁.random_zero_to_n e₁.max_mutation_points with
      | none => none
      | some (p, e₂) =>
        let points := p + 1
        let (child, s₁) := e₂.genetics.mutate e₂.state left points
        some (child, { e₂ with state := s₁ })
    else
      match e₁.random_zero_to_n e₁.max_crossover_points with
      | none => none
      | some (p, e₂) =>
        let points := p + 1
        let (child, s₁) := e₂.genetics.crossover e₂.state left right points
        some (child, { e₂ with state := s₁ })

/-- Island mirrors the struct of src/island.rs.  The boxed IslandEngine is
external user code; the only part of it the embedded operations observe is
the comparison function used by sort_individuals, carried as `cmp`. -/
structure Island where
  name : String
  cmp : Nat → Nat → Ordering
  individuals : List Nat
  individuals_are_sorted : Bool
  future : List Nat

/-- Island.new mirrors src/island.rs:12-20. -/
def Island.new (name : String) (cmp : Nat → Nat → Ordering) : Island :=
  { name := name, cmp := cmp, individuals := [], individuals_are_sorted := false,
    future := [] }

/-- Island.len mirrors src/island.rs:103-105. -/
def Island.len (i : Island) : Nat := i.individuals.length

/-- Island.len_future_generation mirrors src/island.rs:108-110. -/
def Island.len_future_generation (i : Island) : Nat := i.future.length

/-- advance_generation mirrors src/island.rs:113-117: the current generation
is cleared, the sorted flag reset, and the (cleared) current generation is
swapped with the future generation. -/
def Island.advance_generation (i : Island) : Island :=
  { i with individuals := i.future, individuals_are_sorted := false, future := [] }

/-- sort_individuals mirrors src/island.rs:96-100: a stable sort of the
current generation by the engine comparison, after which the sorted flag is
set. -/
def Island.sort_individuals (i : Island) : Island :=
  { i with
      individuals := i.individuals.mergeSort (fun a b => i.cmp a b ≠ Ordering.gt),
      individuals_are_sorted := true }

/-- run_one_generation mirrors src/island.rs:60-74.  The pre/post generation
hooks and the per-individual runs mutate only the external engine state (not
the island's populations), so on this embedding the observable effect is the
final sort. -/
def Island.run_one_generation (i : Island) : Island :=
  i.sort_individuals

/-- select_one_individual mirrors src/island.rs:121-138; `none` when the
population is unsorted or empty, otherwise the element at the index picked by
the curve (an out-of-range pick makes `Vec::get` return None, also `none`
here). -/
def Island.select_one_individual {σ : Type} (i : Island) (curve : SelectionCurve σ)
    (s : σ) : Option (Nat × σ) :=
  if !i.individuals_are_sorted then none
  else
    let max := i.individuals.length
    if max = 0 then none
    else
      let (idx, s₁) := curve s max
      (i.individuals[idx]?).map (fun x => (x, s₁))

/-- select_and_remove_one_individual mirrors src/island.rs:142-157.  The Rust
`Vec::remove` aborts when the picked index is out of range; that case is
`none`. -/
def Island.select_and_remove_one_individual {σ : Type} (i : Island)
    (curve : SelectionCurve σ) (s : σ) : Option (Nat × Island × σ) :=
  if !i.individuals_are_sorted then none
  else
    let max := i.individuals.length
    if max = 0 then none
    else
      let (idx, s₁) := curve s max
      match i.individuals[idx]? with
      | none => none
      | some x =>
        some (x, { i with individuals := i.individuals.eraseIdx idx }, s₁)

/-- add_individual_to_future_generation mirrors src/island.rs:160-162. -/
def Island.add_individual_to_future_generation (i : Island) (id : Nat) : Island :=
  { i with future := i.future ++ [id] }

/-- Island.clear mirrors src/island.rs:28-32. -/
def Island.clear (i : Island) : Island :=
  { i with individuals := [], individuals_are_sorted := false, future := [] }

/-- MigrationAlgorithm carries the five variants matched in
src/world.rs:216-260 (the enum declaration itself is not among the provided
sources; variant names and payloads are exactly those the match arms use). -/
inductive MigrationAlgorithm where
  | Circular
  | Cyclical (n : Nat)
  | Incremental (n : Nat)
  | RandomCircular
  | CompletelyRandom
deriving DecidableEq, Repr

/-- World mirrors the struct of src/world.rs:8-30 (the threading_model field
exists only under optional cargo features and carries no behaviour in the
embedded operations, so it is omitted). -/
structure World (σ : Type) where
  individuals_per_island : Nat
  elite_individuals_per_generation : Nat
  generations_between_migrations : Nat
  number_of_individuals_migrating : Nat
  migration_algorithm : MigrationAlgorithm
  clone_migrated_individuals : Bool
  select_for_migration : SelectionCurve σ
  select_as_parent : SelectionCurve σ
  select_as_elite : SelectionCurve σ
  genetic_engine : GeneticEngine σ
  islands : List Island
  generation_count : Nat
  generations_remaining_before_migration : Nat

/-- WorldBuilder mirrors the struct of src/world_builder.rs with its Default
values (the curve fields have no default here because the concrete curve
constants are not among the provided sources). -/
structure WorldBuilder (σ : Type) where
  individuals_per_island : Nat := 100
  elite_individuals_per_generation : Nat := 2
  generations_between_migrations : Nat := 10
  number_of_individuals_migrating : Nat := 10
  migration_algorithm : MigrationAlgorithm := .Circular
  clone_migrated_individuals : Bool := true
  select_for_migration : SelectionCurve σ
  select_as_parent : SelectionCurve σ
  select_as_elite : SelectionCurve σ
  genetic_engine : Option (GeneticEngine σ) := none
  islands : List Island := []

/-- World.new mirrors src/world.rs:36-54; the `builder.genetic_engine.unwrap()`
is total here because WorldBuilder.build only calls it with `some`. -/
def World.new {σ : Type} (b : WorldBuilder σ) (ge : GeneticEngine σ) : World σ :=
  { individuals_per_island := b.individuals_per_island,
    elite_individuals_per_generation := b.elite_individuals_per_generation,
    generations_between_migrations := b.generations_between_migrations,
    number_of_individuals_migrating := b.number_of_individuals_migrating,
    migration_algorithm := b.migration_algorithm,
    clone_migrated_individuals := b.clone_migrated_individuals,
    select_for_migration := b.select_for_migration,
    select_as_parent := b.select_as_parent,
    select_as_elite := b.select_as_elite,
    genetic_engine := ge,
    islands := b.islands,
    generation_count := 0,
    generations_remaining_before_migration := b.generations_between_migrations }

/-- WorldBuilder.build mirrors src/world_builder.rs:173-192: the four checks
in source order, then World::new.  Note that no check concerns the island
list. -/
def WorldBuilder.build {σ : Type} (b : WorldBuilder σ) :
    Except GeneticError (World σ) :=
  if b.individuals_per_island = 0 then
    .error .InvalidIndividualsPerIsland
  else if b.individuals_per_island ≤ b.elite_individuals_per_generation then
    .error .InvalidEliteCount
  else if b.individuals_per_island < b.number_of_individuals_migrating then
    .error .InvalidMigrationCount
  else
    match b.genetic_engine with
    | none => .error .MissingGeneticEngine
    | some ge => .ok (World.new b ge)

/-- get_number_of_islands mirrors src/world.rs:57-59. -/
def World.get_number_of_islands {σ : Type} (w : World σ) : Nat :=
  w.islands.length

/-- generation_count_fn mirrors the accessor of src/world.rs:335-337 (the
struct field itself is called generation_count). -/
def World.generation_count_fn {σ : Type} (w : World σ) : Nat :=
  w.generation_count

/-- island_at_distance mirrors src/world.rs:292-294: the modulus is the
island count (a `% 0` abort is impossible at every call site because the
migration dispatch requires at least two islands). -/
def World.island_at_distance {σ : Type} (w : World σ)
    (source_id distance : Nat) : Nat :=
  (source_id + distance) % w.islands.length

/-- migrate_one_individual_from_island_to_island mirrors src/world.rs:265-288.
The `islands.get_mut(...).unwrap()` aborts and the `.unwrap()` on a failed
selection abort are modelled as `none`.  In the non-cloning branch the source
island is updated before the destination island is fetched, exactly as the
sequential `&mut` borrows do in the source (this matters when source equals
destination). -/
def World.migrate_one_individual_from_island_to_island {σ : Type}
    (w : World σ) (source_island_id destination_island_id : Nat) :
    Option (World σ) :=
  let curve := w.select_for_migration
  match w.islands[source_island_id]? with
  | none => none
  | some source_island =>
    if w.clone_migrated_individuals then
      match source_island.select_one_individual curve w.genetic_engine.state with
      | none => none
      | some (migrating, s₁) =>
        let w₁ := { w with genetic_engine := { w.genetic_engine with state := s₁ } }
        match w₁.islands[destination_island_id]? with
        | none => none
        | some destination_island =>
          let dest₁ := destination_island.add_individual_to_future_generation migrating
          some { w₁ with islands := w₁.islands.set destination_island_id dest₁ }
    else
      match source_island.select_and_remove_one_individual curve
              w.genetic_engine.state with
      | none => none
      | some (migrating, source_island₁, s₁) =>
        let w₁ := { w with
          genetic_engine := { w.genetic_engine with state := s₁ },
          islands := w.islands.set source_island_id source_island₁ }
        match w₁.islands[destination_island_id]? with
        | none => none
        | some destination_island =>
          let dest₁ := destination_island.add_individual_to_future_generation migrating
          some { w₁ with islands := w₁.islands.set destination_island_id dest₁ }

/-- migrateLoop runs the `for _ in 0..self.number_of_individuals_migrating`
body of migrate_one_island_circular_n (src/world.rs:304-309): `count` copies
of one individual from `src` to `dst`. -/
def World.migrateLoop {σ : Type} (w : World σ) (src dst : Nat) :
    Nat → Option (World σ)
  | 0 => some w
  | count + 1 =>
    match w.migrate_one_individual_from_island_to_island src dst with
    | none => none
    | some w₁ => w₁.migrateLoop src dst count

/-- migrate_one_island_circular_n mirrors src/world.rs:302-310: the
destination is computed once from the current island count, then the migrant
count is moved. -/
def World.migrate_one_island_circular_n {σ : Type} (w : World σ)
    (source_island_id n : Nat) : Option (World σ) :=
  let destination_island_id := w.island_at_distance source_island_id n
  w.migrateLoop source_island_id destination_island_id
    w.number_of_individuals_migrating

/-- migrateSeq runs migrate_one_island_circular_n for each (source, distance)
pair in turn; it is the common shape of the `for source_island_id in 0..len`
loop of migrate_all_islands_circular_n (src/world.rs:296-300) and the
`for (source_id, n) in zip(...)` loop of the RandomCircular arm
(src/world.rs:238-240). -/
def World.migrateSeq {σ : Type} (w : World σ) :
    List (Nat × Nat) → Option (World σ)
  | [] => some w
  | (src, n) :: rest =>
    match w.migrate_one_island_circular_n src n with
    | none => none
    | some w₁ => w₁.migrateSeq rest

/-- migrate_all_islands_circular_n mirrors src/world.rs:296-300. -/
def World.migrate_all_islands_circular_n {σ : Type} (w : World σ) (n : Nat) :
    Option (World σ) :=
  w.migrateSeq ((List.range w.islands.length).map (fun s => (s, n)))

/-- distancesGo is the loop of distances_to_next_island
(src/world.rs:326-330).  The usize expression `(previous + len) - source`
aborts on underflow (only possible if an entry exceeds the island count),
modelled as `none`. -/
def distancesGo (len : Nat) : Nat → List Nat → Option (List Nat)
  | _, [] => some []
  | prev, x :: rest =>
    if prev + len < x then none
    else
      match distancesGo len x rest with
      | none => none
      | some ds => some ((prev + len - x) % len :: ds)

/-- distances_to_next_island mirrors src/world.rs:322-333; the
`island_id.last().unwrap()` abort on an empty slice is `none`. -/
def distances_to_next_island (island_id : List Nat) : Option (List Nat) :=
  match island_id.getLast? with
  | none => none
  | some last => distancesGo island_id.length last island_id

/-- random_island_order mirrors src/world.rs:313-318: the shuffled list of
all island ids, drawn from the engine rng. -/
def World.random_island_order {σ : Type} (w : World σ) : List Nat × World σ :=
  let (order, s₁) := w.genetic_engine.rng.shuffleList w.genetic_engine.state
      (List.range w.islands.length)
  (order, { w with genetic_engine := { w.genetic_engine with state := s₁ } })

/-- crDestinationLoop mirrors the destination-drawing loop of the
CompletelyRandom arm (src/world.rs:249-253):
`while source != destination, destination = rng.random_range(0..len)`.
The draw budget `fuel` bounds the redraws; running out while the guard still
holds is `none` (an unreachable case from the actual entry point, where the
destination starts equal to the source and the guard is false at once). -/
def crDestinationLoop {σ : Type} (rng : Rng σ) (st : σ)
    (len source destination : Nat) (fuel : Nat) : Option (Nat × σ) :=
  if source ≠ destination then
    match fuel with
    | 0 => none
    | fuel + 1 =>
      let (d, st₁) := rng.range st len
      crDestinationLoop rng st₁ len source d fuel
  else some (destination, st)

/-- crMigrantLoop runs the `for _ in 0..number_of_individuals_migrating` body
of the CompletelyRandom arm (src/world.rs:248-258) for one source island. -/
def World.crMigrantLoop {σ : Type} (w : World σ) (len source_island_id : Nat) :
    Nat → Option (World σ)
  | 0 => some w
  | count + 1 =>
    match crDestinationLoop w.genetic_engine.rng w.genetic_engine.state len
        source_island_id source_island_id 1 with
    | none => none
    | some (destination_island_id, st₁) =>
      let w₁ := { w with genetic_engine := { w.genetic_engine with state := st₁ } }
      match w₁.migrate_one_individual_from_island_to_island source_island_id
          destination_island_id with
      | none => none
      | some w₂ => w₂.crMigrantLoop len source_island_id count

/-- crSourceLoop runs the outer `for source_island_id in 0..len` loop of the
CompletelyRandom arm (src/world.rs:247-259). -/
def World.crSourceLoop {σ : Type} (w : World σ) (len : Nat) :
    List Nat → Option (World σ)
  | [] => some w
  | src :: rest =>
    match w.crMigrantLoop len src w.number_of_individuals_migrating with
    | none => none
    | some w₁ => w₁.crSourceLoop len rest

/-- migrate_individuals_between_islands mirrors src/world.rs:211-263. -/
def World.migrate_individuals_between_islands {σ : Type} (w : World σ) :
    Option (World σ) :=
  let island_len := w.islands.length
  if island_len > 1 then
    match w.migration_algorithm with
    | .Circular => w.migrate_all_islands_circular_n 1
    | .Cyclical n => w.migrate_all_islands_circular_n n
    | .Incremental n =>
      match w.migrate_all_islands_circular_n n with
      | none => none
      | some w₁ =>
        let next₀ := w₁.island_at_distance 0 (n + 1)
        let next_n := if next₀ = 0 then 1 else next₀
        some { w₁ with migration_algorithm := .Incremental next_n }
    | .RandomCircular =>
      let (island_order, w₁) := w.random_island_order
      match distances_to_next_island island_order with
      | none => none
      | some distances => w₁.migrateSeq (island_order.zip distances)
    | .CompletelyRandom =>
      let len := w.islands.length
      w.crSourceLoop len (List.range len)
  else some w

/-- len_island_future_generation mirrors src/world.rs:159-161; the unwrap
abort on a bad index is `none`. -/
def World.len_island_future_generation {σ : Type} (w : World σ) (index : Nat) :
    Option Nat :=
  (w.islands[index]?).map (fun i => i.len_future_generation)

/-- advance_island_generation mirrors src/world.rs:170-172. -/
def World.advance_island_generation {σ : Type} (w : World σ) (index : Nat) :
    Option (World σ) :=
  (w.islands[index]?).map
    (fun i => { w with islands := w.islands.set index i.advance_generation })

/-- fillIslandLoop is the `while self.len_island_future_generation(id) <
self.individuals_per_island` loop of fill_all_islands (src/world.rs:121-150)
for one island, with the per-island elite counter threaded.  Each pass
appends exactly one individual to the island's future generation, so the
loop needs at most individuals_per_island passes; `fuel` bounds the passes
structurally and every caller passes individuals_per_island, which is always
enough.  Failed unwraps of the selections and the reproduction abort are
`none`. -/
def World.fillIslandLoop {σ : Type} (w : World σ) (id elite_remaining : Nat) :
    Nat → Option (World σ)
  | 0 =>
    match w.islands[id]? with
    | none => none
    | some island =>
      if island.future.length < w.individuals_per_island then none
      else some w
  | fuel + 1 =>
    match w.islands[id]? with
    | none => none
    | some island =>
      if island.future.length < w.individuals_per_island then
        let pick := if 0 < elite_remaining then (true, elite_remaining - 1)
          else (false, elite_remaining)
        let next? : Option (Nat × GeneticEngine σ) :=
          if island.len = 0 then
            some w.genetic_engine.rand_individual
          else if pick.1 then
            match island.select_one_individual w.select_as_elite
                w.genetic_engine.state with
            | none => none
            | some (elite, s₁) => some (elite, { w.genetic_engine with state := s₁ })
          else
            match island.select_one_individual w.select_as_parent
                w.genetic_engine.state with
            | none => none
            | some (left, s₁) =>
              let ge₁ := { w.genetic_engine with state := s₁ }
              match island.select_one_individual w.select_as_parent ge₁.state with
              | none => none
              | some (right, s₂) =>
                let ge₂ := { ge₁ with state := s₂ }
                ge₂.rand_child left right
        match next? with
        | none => none
        | some (next, ge₃) =>
          let island₁ := island.add_individual_to_future_generation next
          let w₁ := { w with genetic_engine := ge₃,
                             islands := w.islands.set id island₁ }
          w₁.fillIslandLoop id pick.2 fuel
      else some w

/-- fillIslandsFrom is the `for id in 0..self.islands.len()` loop of
fill_all_islands (src/world.rs:120-154): fill one island, advance its
generation, continue with the next id. -/
def World.fillIslandsFrom {σ : Type} (w : World σ) :
    List Nat → Option (World σ)
  | [] => some w
  | id :: rest =>
    match w.fillIslandLoop id w.elite_individuals_per_generation
        w.individuals_per_island with
    | none => none
    | some w₁ =>
      match w₁.advance_island_generation id with
      | none => none
      | some w₂ => w₂.fillIslandsFrom rest

/-- fill_all_islands mirrors src/world.rs:119-157.  The source signature is
`Result<(), GeneticError>` over `&mut self`; here the updated world is the
payload, and the aborts of the internal unwraps are `none`. -/
def World.fill_all_islands {σ : Type} (w : World σ) : Option (World σ) :=
  w.fillIslandsFrom (List.range w.islands.length)

/-- run_one_generation mirrors src/world.rs:85-98: every island runs and
re-sorts, then the migration countdown is decremented when the cadence is
non-zero.  Decrementing a usize that is already 0 aborts, modelled as
`none`. -/
def World.run_one_generation {σ : Type} (w : World σ) : Option (World σ) :=
  let w₁ := { w with islands := w.islands.map Island.run_one_generation }
  if 0 < w₁.generations_between_migrations then
    if w₁.generations_remaining_before_migration = 0 then none
    else
      let w₂ := { w₁ with generations_remaining_before_migration :=
        w₁.generations_remaining_before_migration - 1 }
      if w₂.generations_remaining_before_migration = 0 then
        match w₂.migrate_individuals_between_islands with
        | none => none
        | some w₃ =>
          some { w₃ with generations_remaining_before_migration :=
            w₃.generations_between_migrations }
      else some w₂
  else some w₁

/-- runGenerationsBounded is run_generations_while (src/world.rs:176-189)
observed for at most `fuel` rounds of fill-run-check; the source loop is
unbounded, so exhausting the bound while the predicate still asks for more is
`none`. -/
def World.runGenerationsBounded {σ : Type} (w : World σ)
    (while_fn : World σ → Bool) : Nat → Option (World σ)
  | 0 => none
  | fuel + 1 =>
    match w.fill_all_islands with
    | none => none
    | some w₁ =>
      match w₁.run_one_generation with
      | none => none
      | some w₂ =>
        if while_fn w₂ then w₂.runGenerationsBounded while_fn fuel
        else some w₂

/-- totalIndividuals counts every individual currently held by any island,
current and future generations together. -/
def World.totalIndividuals {σ : Type} (w : World σ) : Nat :=
  (w.islands.map (fun i => i.individuals.length + i.future.length)).sum

/-- Reachable says a world is an honest run-time state: either just built by
WorldBuilder.build, or produced from a reachable state by one of the public
world operations (a `some`/`ok` result; an aborted operation produces no
state). -/
inductive Reachable {σ : Type} : World σ → Prop where
  | build (b : WorldBuilder σ) (w : World σ) :
      b.build = .ok w → Reachable w
  | fill (w w₁ : World σ) : Reachable w →
      w.fill_all_islands = some w₁ → Reachable w₁
  | runOne (w w₁ : World σ) : Reachable w →
      w.run_one_generation = some w₁ → Reachable w₁
  | migrate (w w₁ : World σ) : Reachable w →
      w.migrate_individuals_between_islands = some w₁ → Reachable w₁
  | runWhile (w w₁ : World σ) (while_fn : World σ → Bool) (fuel : Nat) :
      Reachable w → w.runGenerationsBounded while_fn fuel = some w₁ →
      Reachable w₁

/-! Concrete instances used by witnesses: a deterministic counter rng, a
deterministic genetics, and an always-pick-index-0 selection curve. -/

/-- natRng is a deterministic rng over a Nat counter state; its shuffle is
the identity permutation. -/
def natRng : Rng Nat :=
  { byte := fun s => (s, s + 1),
    range := fun s n => (if n = 0 then 0 else s % n, s + 1),
    shuffleList := fun s l => (l, s) }

/-- natGenetics is a deterministic genetics capability over the counter
state. -/
def natGenetics : Genetics Nat :=
  { random_individual := fun s _ => (100 + s, s + 1),
    mutate := fun s x p => (x + 1000 * p, s + 1),
    crossover := fun s a b p => (a + b + 10000 * p, s + 1) }

/-- curveFirst always picks index 0, which satisfies the SelectionCurve
contract. -/
def curveFirst : SelectionCurve Nat := fun s _ => (0, s)

/-- natEngine is a concrete engine at the GeneticEngineBuilder defaults. -/
def natEngine : GeneticEngine Nat :=
  { rng := natRng, state := 0, mutation_rate := 1, crossover_rate := 9,
    max_mutation_points := 3, max_crossover_points := 10,
    max_individual_points := 100, genetics := natGenetics }

/-- demoIsland builds an island with the given current generation and sorted
flag. -/
def demoIsland (pop : List Nat) (sorted : Bool) : Island :=
  { name := "i", cmp := fun a b => compare a b, individuals := pop,
    individuals_are_sorted := sorted, future := [] }

/-- demoWorld is a tiny two-island world used by the witnesses. -/
def demoWorld : World Nat :=
  { individuals_per_island := 2,
    elite_individuals_per_generation := 1,
    generations_between_migrations := 10,
    number_of_individuals_migrating := 1,
    migration_algorithm := .Circular,
    clone_migrated_individuals := true,
    select_for_migration := curveFirst,
    select_as_parent := curveFirst,
    select_as_elite := curveFirst,
    genetic_engine := natEngine,
    islands := [demoIsland [5, 6] true, demoIsland [7, 8] true],
    generation_count := 0,
    generations_remaining_before_migration := 10 }

/-- emptyWorld is demoWorld with both populations still empty. -/
def emptyWorld : World Nat :=
  { demoWorld with islands := [demoIsland [] false, demoIsland [] false] }

/-- crDemoWorld is demoWorld under the CompletelyRandom migration
algorithm. -/
def crDemoWorld : World Nat :=
  { demoWorld with migration_algorithm := .CompletelyRandom }

/-- C1: for every migration pass with the CompletelyRandom algorithm and at
least two islands, the destination is claimed to be redrawn until it differs
from the source.  The code (src/world.rs:249-253) initializes the
destination to the source and loops `while source != destination`: the guard
is false immediately, no redraw ever happens, and the destination returned
is always the source itself, so every CompletelyRandom migrant lands back on
its own island.  The second conjunct shows this end to end on a concrete
two-island world: island 0 receives its own individual 5 and island 1 its
own individual 7. -/
theorem c1_completely_random_destination_equals_source :
    (∀ (σ : Type) (rng : Rng σ) (st : σ) (len source fuel : Nat),
      crDestinationLoop rng st len source source fuel = some (source, st)) ∧
    (crDemoWorld.migrate_individuals_between_islands).map
        (fun w => w.islands.map (fun i => i.future)) = some [[5], [7]] := by
  constructor
  · intro σ rng st len source fuel
    unfold crDestinationLoop
    simp
  · rfl

/-- C2: WorldBuilder::build (src/world_builder.rs:173-192) does reject an
elite count equal to the island capacity and a migration count exceeding the
capacity (first two conjuncts, at the default capacity 100), but it performs
no check at all on the island list: a builder with zero islands and an
otherwise valid configuration builds a World whose island list is empty
(third conjunct), although the field documentation says at least one island
is required. -/
theorem c2_build_accepts_zero_islands {σ : Type} (cm cp ce : SelectionCurve σ)
    (ge : GeneticEngine σ) :
    (({ elite_individuals_per_generation := 100,
        select_for_migration := cm, select_as_parent := cp,
        select_as_elite := ce, genetic_engine := some ge,
        islands := [] } : WorldBuilder σ).build
      = .error .InvalidEliteCount) ∧
    (({ number_of_individuals_migrating := 101,
        select_for_migration := cm, select_as_parent := cp,
        select_as_elite := ce, genetic_engine := some ge,
        islands := [] } : WorldBuilder σ).build
      = .error .InvalidMigrationCount) ∧
    (∃ w : World σ,
      ({ select_for_migration := cm, select_as_parent := cp,
         select_as_elite := ce, genetic_engine := some ge,
         islands := [] } : WorldBuilder σ).build = .ok w ∧
      w.islands = []) := by
  refine ⟨rfl, rfl, ⟨_, rfl, rfl⟩⟩

/-- C3: a configuration with mutation_rate = 0 and crossover_rate = 0 is
claimed to be rejected by GeneticEngineBuilder::build.  The build checks
(src/genetic_engine_builder.rs:105-127) never look at the sum of the rates:
with both rates zero (and a genetics capability present) build returns Ok,
and rand_child on the resulting engine evaluates `u8 % 0`, which aborts the
program (modelled as `none`). -/
theorem c3_zero_rates_build_accepted {σ : Type} (rngOps : Rng σ) (st : σ)
    (g : Genetics σ) :
    ∃ e : GeneticEngine σ,
      ({ mutation_rate := 0, crossover_rate := 0,
         genetics := some g } : GeneticEngineBuilder σ).build rngOps st = .ok e ∧
      ∀ left right, e.rand_child left right = none := by
  refine ⟨_, rfl, fun left right => rfl⟩

/-- byteStream is the rng whose state is the exact list of bytes it will
deliver; it makes the draw inside rand_child a function of an explicit input
byte so that distribution statements can be made by counting bytes. -/
def byteStream : Rng (List Nat) :=
  { byte := fun s => (s.headD 0, s.tail),
    range := fun s n => (if n = 0 then 0 else s.headD 0 % n, s.tail),
    shuffleList := fun s l => (l, s) }

/-- trivGeneticsL is a concrete genetics capability over the byte-stream
state. -/
def trivGeneticsL : Genetics (List Nat) :=
  { random_individual := fun s _ => (0, s),
    mutate := fun s x p => (x + p, s),
    crossover := fun s a b p => (a + b + p, s) }

/-- byteEngine assembles an engine over the byte-stream rng with the given
rates, point bounds and pending byte list. -/
def byteEngine (g : Genetics (List Nat)) (m c maxm maxc maxi : Nat)
    (stream : List Nat) : GeneticEngine (List Nat) :=
  { rng := byteStream, state := stream, mutation_rate := m,
    crossover_rate := c, max_mutation_points := maxm,
    max_crossover_points := maxc, max_individual_points := maxi,
    genetics := g }

set_option maxRecDepth 4096 in
/-- C8 counterexample: the operator-selection draw of rand_child is
random_zero_to_n(mutation_rate + crossover_rate) = byte % 10 at the default
rates 1 and 9 (src/genetic_engine.rs:44-46, 57).  Over the 256 equally
likely input bytes the value 0 is produced by 26 bytes while the value 9 is
produced by only 25, so the draw is not uniform on [0, 10) as the claim
states. -/
theorem c8_counterexample_modulo_bias :
    ((List.range 256).countP (fun b =>
      ((byteEngine trivGeneticsL 1 9 3 10 100 [b]).random_zero_to_n
        ((byteEngine trivGeneticsL 1 9 3 10 100 [b]).mutation_rate +
         (byteEngine trivGeneticsL 1 9 3 10 100 [b]).crossover_rate)).map
        (fun q => q.1) == some 0) = 26) ∧
    ((List.range 256).countP (fun b =>
      ((byteEngine trivGeneticsL 1 9 3 10 100 [b]).random_zero_to_n
        ((byteEngine trivGeneticsL 1 9 3 10 100 [b]).mutation_rate +
         (byteEngine trivGeneticsL 1 9 3 10 100 [b]).crossover_rate)).map
        (fun q => q.1) == some 9) = 25) := by
  constructor
  · decide
  · decide

/-- C8 amended: with mutation_rate + crossover_rate positive and fitting
the u8 addition of src/genetic_engine.rs:57 (at most 255, since the rate
fields are u8 and an overflowing sum aborts rand_child), on the input byte
b the operator-selection value of rand_child is exactly
b % (mutation_rate + crossover_rate) (a modulo reduction of the byte — in
range, but uniform only when the sum divides 256, as the counterexample
shows); mutation of `left` happens exactly when that value is below
mutation_rate, with point count (next byte % max_mutation_points) + 1, which
lies in [1, max_mutation_points]; otherwise crossover of `left` and `right`
happens with point count (next byte % max_crossover_points) + 1, in
[1, max_crossover_points]. -/
theorem c8_amended_operator_selection (g : Genetics (List Nat))
    (m c maxm maxc maxi b p left right : Nat) (rest : List Nat)
    (hmc : 0 < m + c) (hle : m + c ≤ 255) :
    (((byteEngine g m c maxm maxc maxi (b :: p :: rest)).random_zero_to_n
        (m + c)).map (fun q => q.1) = some (b % (m + c)) ∧
      b % (m + c) < m + c) ∧
    (b % (m + c) < m → 0 < maxm →
      ((byteEngine g m c maxm maxc maxi (b :: p :: rest)).rand_child left
          right).map (fun q => q.1) =
        some ((g.mutate rest left (p % maxm + 1)).1) ∧
      1 ≤ p % maxm + 1 ∧ p % maxm + 1 ≤ maxm) ∧
    (m ≤ b % (m + c) → 0 < maxc →
      ((byteEngine g m c maxm maxc maxi (b :: p :: rest)).rand_child left
          right).map (fun q => q.1) =
        some ((g.crossover rest left right (p % maxc + 1)).1) ∧
      1 ≤ p % maxc + 1 ∧ p % maxc + 1 ≤ maxc) := by
  have h1 : ¬ m + c = 0 := by omega
  have hno : ¬ 255 < m + c := by omega
  refine ⟨⟨?_, Nat.mod_lt _ hmc⟩, ?_, ?_⟩
  · simp [byteEngine, GeneticEngine.random_zero_to_n, byteStream, h1]
  · intro hlt hmaxm
    refine ⟨?_, Nat.le_add_left 1 _, by have := Nat.mod_lt p hmaxm; omega⟩
    have h2 : ¬ maxm = 0 := by omega
    simp [byteEngine, GeneticEngine.rand_child,
      GeneticEngine.random_zero_to_n, byteStream, h1, h2, hlt, hno]
  · intro hge hmaxc
    refine ⟨?_, Nat.le_add_left 1 _, by have := Nat.mod_lt p hmaxc; omega⟩
    have h2 : ¬ maxc = 0 := by omega
    have h3 : ¬ b % (m + c) < m := Nat.not_lt.mpr hge
    simp [byteEngine, GeneticEngine.rand_child,
      GeneticEngine.random_zero_to_n, byteStream, h1, h2, h3, hno]

/-- C8 amended, witnessed at concrete inputs: rates 1 and 9, byte 0 selects
mutation (0 % 10 = 0 < 1) with point count 5 % 3 + 1. -/
theorem c8_amended_witness :
    0 < 1 + 9 ∧ 1 + 9 ≤ 255 ∧
    ((byteEngine trivGeneticsL 1 9 3 10 100 (0 :: 5 :: [])).rand_child 4
        7).map (fun q => q.1) =
      some ((trivGeneticsL.mutate [] 4 (5 % 3 + 1)).1) :=
  ⟨by decide, by decide,
    ((c8_amended_operator_selection trivGeneticsL 1 9 3 10 100 0 5 4 7 []
        (by decide) (by decide)).2.1 (by decide) (by decide)).1⟩

/-- prevCons pairs every entry of a list with the entry before it, the first
entry receiving the seed: it is the list of destinations the RandomCircular
pass computes, since each shuffled island migrates to its predecessor in the
shuffled order. -/
def prevCons (prev : Nat) : List Nat → List Nat
  | [] => []
  | x :: rest => prev :: prevCons x rest

/-- randomCircularDestinations composes distances_to_next_island with the
per-pair destination computation `(source + distance) % len` performed by
island_at_distance inside migrate_one_island_circular_n, exactly as the
RandomCircular arm zips them (src/world.rs:236-240). -/
def randomCircularDestinations (len : Nat) (order : List Nat) :
    Option (List Nat) :=
  (distances_to_next_island order).map
    (fun ds => (order.zip ds).map (fun q => (q.1 + q.2) % len))

/-- stepBackMod says that walking distance (prev + len - x) from x, modulo
len, lands exactly on prev. -/
theorem stepBackMod (len x prev : Nat) (hx : x < len) (hp : prev < len) :
    (x + (prev + len - x) % len) % len = prev := by
  have h1 : x + (prev + len - x) = prev + len := by omega
  rw [Nat.add_mod_mod, h1, Nat.add_mod_right, Nat.mod_eq_of_lt hp]

/-- distancesGo_spec: on entries below the modulus the distance loop never
underflows, returns one distance per entry, and the induced destinations are
exactly the predecessor list. -/
theorem distancesGo_spec (len : Nat) (_hlen : 0 < len) :
    ∀ (l : List Nat) (prev : Nat), prev < len → (∀ x ∈ l, x < len) →
      ∃ ds, distancesGo len prev l = some ds ∧
        (l.zip ds).map (fun q => (q.1 + q.2) % len) = prevCons prev l ∧
        ds.length = l.length := by
  intro l
  induction l with
  | nil =>
    intro prev _ _
    exact ⟨[], rfl, rfl, rfl⟩
  | cons x rest ih =>
    intro prev hprev hmem
    have hx : x < len := hmem x (List.mem_cons_self x rest)
    obtain ⟨ds, hds, hmap, hdslen⟩ :=
      ih x hx (fun y hy => hmem y (List.mem_cons_of_mem x hy))
    have hnof : ¬ prev + len < x := by omega
    refine ⟨(prev + len - x) % len :: ds, ?_, ?_, ?_⟩
    · unfold distancesGo
      rw [if_neg hnof, hds]
    · simp only [List.zip_cons_cons, List.map_cons, hmap, prevCons]
      rw [stepBackMod len x prev hx hprev]
    · simp [hdslen]

/-- prevCons_eq_rotate: the predecessor list of a non-empty list is its last
element followed by everything but the last. -/
theorem prevCons_eq_rotate :
    ∀ (l : List Nat) (prev : Nat), l ≠ [] →
      prevCons prev l = prev :: l.dropLast := by
  intro l
  induction l with
  | nil => intro prev h; exact absurd rfl h
  | cons x rest ih =>
    intro prev _
    cases rest with
    | nil => rfl
    | cons y t =>
      have := ih x (by simp)
      simp only [prevCons] at this ⊢
      rw [this]
      rfl

/-- C6: in one RandomCircular pass over n islands, for any drawn permutation
`order` of the island indices, the distance list exists (no abort) and the
destination list computed through distances_to_next_island and
island_at_distance is again a permutation of all island indices with no
repeats — so every island is a source exactly once (the sources are the
permutation itself) and a destination exactly once. -/
theorem c6_random_circular_each_island_once (n : Nat) (order : List Nat)
    (hn : 2 ≤ n) (hperm : order.Perm (List.range n)) :
    ∃ ds dests, distances_to_next_island order = some ds ∧
      randomCircularDestinations n order = some dests ∧
      dests.Perm (List.range n) ∧ dests.Nodup := by
  have hlen : order.length = n := by
    rw [hperm.length_eq, List.length_range]
  have hne : order ≠ [] := List.ne_nil_of_length_pos (by omega)
  have hmem : ∀ x ∈ order, x < n := by
    intro x hx
    have : x ∈ List.range n := hperm.mem_iff.mp hx
    exact List.mem_range.mp this
  have hlast : order.getLast hne ∈ order := List.getLast_mem hne
  have hlastlt : order.getLast hne < n := hmem _ hlast
  obtain ⟨ds, hds, hmap, hdslen⟩ :=
    distancesGo_spec n (by omega) order (order.getLast hne) hlastlt hmem
  have hds' : distances_to_next_island order = some ds := by
    unfold distances_to_next_island
    rw [List.getLast?_eq_getLast order hne, hlen]
    exact hds
  have hdest : randomCircularDestinations n order =
      some (prevCons (order.getLast hne) order) := by
    unfold randomCircularDestinations
    rw [hds']
    exact congrArg some hmap
  rw [prevCons_eq_rotate order _ hne] at hdest
  have hsplit : order.dropLast ++ [order.getLast hne] = order :=
    List.dropLast_append_getLast hne
  have hpermdest : (order.getLast hne :: order.dropLast).Perm (List.range n) := by
    have h1 : (order.getLast hne :: order.dropLast).Perm
        (order.dropLast ++ [order.getLast hne]) := by
      have h2 := @List.perm_append_comm Nat [order.getLast hne] order.dropLast
      simpa using h2
    rw [hsplit] at h1
    exact h1.trans hperm
  refine ⟨ds, _, hds', hdest, hpermdest, ?_⟩
  exact hpermdest.nodup_iff.mpr (List.nodup_range n)

/-- C6 witnessed at a concrete permutation of three islands. -/
theorem c6_witness :
    ∃ ds dests, distances_to_next_island [2, 0, 1] = some ds ∧
      randomCircularDestinations 3 [2, 0, 1] = some dests ∧
      dests.Perm (List.range 3) ∧ dests.Nodup :=
  c6_random_circular_each_island_once 3 [2, 0, 1] (by decide) (by decide)

/-- sumMapSet tracks the sum of a measure over a list when one position is
replaced (stated additively to stay in Nat). -/
theorem sumMapSet (f : Island → Nat) :
    ∀ (l : List Island) (i : Nat) (a b : Island), l[i]? = some b →
      ((l.set i a).map f).sum + f b = (l.map f).sum + f a := by
  intro l
  induction l with
  | nil => intro i a b h; simp at h
  | cons c t ih =>
    intro i a b h
    cases i with
    | zero =>
      simp only [List.getElem?_cons_zero, Option.some.injEq] at h
      subst h
      simp only [List.set_cons_zero, List.map_cons, List.sum_cons]
      omega
    | succ j =>
      simp only [List.getElem?_cons_succ] at h
      have ih2 := ih j a b h
      simp only [List.set_cons_succ, List.map_cons, List.sum_cons]
      omega

/-- FrameEq collects everything a single migration or fill step leaves
unchanged: the island count, the generation counter, and the whole immutable
configuration (only island contents, the rng state, the migration-algorithm
payload and the migration countdown may differ). -/
structure FrameEq {σ : Type} (w w₁ : World σ) : Prop where
  len_eq : w₁.islands.length = w.islands.length
  gen_eq : w₁.generation_count = w.generation_count
  cap_eq : w₁.individuals_per_island = w.individuals_per_island
  elite_eq : w₁.elite_individuals_per_generation = w.elite_individuals_per_generation
  mig_eq : w₁.number_of_individuals_migrating = w.number_of_individuals_migrating
  clone_eq : w₁.clone_migrated_individuals = w.clone_migrated_individuals
  alg_eq : w₁.migration_algorithm = w.migration_algorithm
  between_eq : w₁.generations_between_migrations = w.generations_between_migrations
  cm_eq : w₁.select_for_migration = w.select_for_migration
  cp_eq : w₁.select_as_parent = w.select_as_parent
  ce_eq : w₁.select_as_elite = w.select_as_elite
  emut_eq : w₁.genetic_engine.mutation_rate = w.genetic_engine.mutation_rate
  ecross_eq : w₁.genetic_engine.crossover_rate = w.genetic_engine.crossover_rate
  emaxm_eq : w₁.genetic_engine.max_mutation_points = w.genetic_engine.max_mutation_points
  emaxc_eq : w₁.genetic_engine.max_crossover_points = w.genetic_engine.max_crossover_points
  emaxi_eq : w₁.genetic_engine.max_individual_points = w.genetic_engine.max_individual_points
  erng_eq : w₁.genetic_engine.rng = w.genetic_engine.rng
  egen_eq : w₁.genetic_engine.genetics = w.genetic_engine.genetics

/-- FrameEq is reflexive. -/
theorem FrameEq.refl {σ : Type} (w : World σ) : FrameEq w w := by
  constructor <;> rfl

/-- FrameEq is transitive. -/
theorem frameEq_trans {σ : Type} {w₁ w₂ w₃ : World σ}
    (h₁ : FrameEq w₁ w₂) (h₂ : FrameEq w₂ w₃) : FrameEq w₁ w₃ :=
  ⟨h₂.len_eq.trans h₁.len_eq, h₂.gen_eq.trans h₁.gen_eq,
    h₂.cap_eq.trans h₁.cap_eq, h₂.elite_eq.trans h₁.elite_eq,
    h₂.mig_eq.trans h₁.mig_eq, h₂.clone_eq.trans h₁.clone_eq,
    h₂.alg_eq.trans h₁.alg_eq, h₂.between_eq.trans h₁.between_eq,
    h₂.cm_eq.trans h₁.cm_eq, h₂.cp_eq.trans h₁.cp_eq,
    h₂.ce_eq.trans h₁.ce_eq, h₂.emut_eq.trans h₁.emut_eq,
    h₂.ecross_eq.trans h₁.ecross_eq, h₂.emaxm_eq.trans h₁.emaxm_eq,
    h₂.emaxc_eq.trans h₁.emaxc_eq, h₂.emaxi_eq.trans h₁.emaxi_eq,
    h₂.erng_eq.trans h₁.erng_eq, h₂.egen_eq.trans h₁.egen_eq⟩

/-- frame_migrate_one: one individual migration preserves the frame. -/
theorem frame_migrate_one {σ : Type} {w w₁ : World σ} {src dst : Nat}
    (h : w.migrate_one_individual_from_island_to_island src dst = some w₁) :
    FrameEq w w₁ := by
  simp only [World.migrate_one_individual_from_island_to_island] at h
  repeat' split at h
  all_goals simp_all
  all_goals (subst h; constructor <;> simp_all)

/-- frame_migrateLoop: migrating any number of individuals between one pair
of islands preserves the frame. -/
theorem frame_migrateLoop {σ : Type} :
    ∀ (count : Nat) (w w₁ : World σ) (src dst : Nat),
      w.migrateLoop src dst count = some w₁ → FrameEq w w₁ := by
  intro count
  induction count with
  | zero =>
    intro w w₁ src dst h
    simp only [World.migrateLoop, Option.some.injEq] at h
    subst h
    exact FrameEq.refl w
  | succ k ih =>
    intro w w₁ src dst h
    simp only [World.migrateLoop] at h
    split at h
    · exact Option.noConfusion h
    next w₂ heq => exact frameEq_trans (frame_migrate_one heq) (ih w₂ w₁ src dst h)

/-- frame_migrate_one_island: one island's outbound migration preserves the
frame. -/
theorem frame_migrate_one_island {σ : Type} {w w₁ : World σ} {src n : Nat}
    (h : w.migrate_one_island_circular_n src n = some w₁) : FrameEq w w₁ :=
  frame_migrateLoop _ w w₁ src _ h

/-- frame_migrateSeq: a sequence of per-island migrations preserves the
frame. -/
theorem frame_migrateSeq {σ : Type} :
    ∀ (pairs : List (Nat × Nat)) (w w₁ : World σ),
      w.migrateSeq pairs = some w₁ → FrameEq w w₁ := by
  intro pairs
  induction pairs with
  | nil =>
    intro w w₁ h
    simp only [World.migrateSeq, Option.some.injEq] at h
    subst h
    exact FrameEq.refl w
  | cons p rest ih =>
    intro w w₁ h
    simp only [World.migrateSeq] at h
    split at h
    · exact Option.noConfusion h
    next w₂ heq => exact frameEq_trans (frame_migrate_one_island heq) (ih w₂ w₁ h)

/-- frame_migrate_all: a full circular pass preserves the frame. -/
theorem frame_migrate_all {σ : Type} {w w₁ : World σ} {n : Nat}
    (h : w.migrate_all_islands_circular_n n = some w₁) : FrameEq w w₁ :=
  frame_migrateSeq _ w w₁ h

/-- frame_crMigrantLoop: the CompletelyRandom per-source loop preserves the
frame. -/
theorem frame_crMigrantLoop {σ : Type} :
    ∀ (count : Nat) (w w₁ : World σ) (len src : Nat),
      w.crMigrantLoop len src count = some w₁ → FrameEq w w₁ := by
  intro count
  induction count with
  | zero =>
    intro w w₁ len src h
    simp only [World.crMigrantLoop, Option.some.injEq] at h
    subst h
    exact FrameEq.refl w
  | succ k ih =>
    intro w w₁ len src h
    simp only [World.crMigrantLoop] at h
    split at h
    · exact Option.noConfusion h
    next d st₁ heq =>
      split at h
      · exact Option.noConfusion h
      next w₂ heq₂ =>
        have hframe : FrameEq w w₂ := by
          have h1 := frame_migrate_one heq₂
          exact frameEq_trans (by constructor <;> rfl) h1
        exact frameEq_trans hframe (ih w₂ w₁ len src h)

/-- frame_crSourceLoop: the CompletelyRandom source loop preserves the
frame. -/
theorem frame_crSourceLoop {σ : Type} :
    ∀ (srcs : List Nat) (w w₁ : World σ) (len : Nat),
      w.crSourceLoop len srcs = some w₁ → FrameEq w w₁ := by
  intro srcs
  induction srcs with
  | nil =>
    intro w w₁ len h
    simp only [World.crSourceLoop, Option.some.injEq] at h
    subst h
    exact FrameEq.refl w
  | cons s rest ih =>
    intro w w₁ len h
    simp only [World.crSourceLoop] at h
    split at h
    · exact Option.noConfusion h
    next w₂ heq => exact frameEq_trans (frame_crMigrantLoop _ w w₂ len s heq) (ih w₂ w₁ len h)

/-- incDemoWorld is demoWorld under Incremental(1) migration. -/
def incDemoWorld : World Nat :=
  { demoWorld with migration_algorithm := .Incremental 1 }

/-- C7: a completed migration pass over at least two islands with algorithm
Incremental(n) stores Incremental(n') with n' = (n+1) mod island count,
except that a wrapped 0 becomes 1; the stored value is therefore never 0,
and since every later pass starts from another Incremental value the same
statement applies to every pass of any sequence. -/
theorem c7_incremental_advances_distance {σ : Type} (w w₁ : World σ) (n : Nat)
    (hlen : 2 ≤ w.islands.length)
    (halg : w.migration_algorithm = .Incremental n)
    (h : w.migrate_individuals_between_islands = some w₁) :
    w₁.migration_algorithm =
      .Incremental (if (n + 1) % w.islands.length = 0 then 1
        else (n + 1) % w.islands.length) ∧
    (if (n + 1) % w.islands.length = 0 then 1
      else (n + 1) % w.islands.length) ≠ 0 := by
  constructor
  · simp only [World.migrate_individuals_between_islands] at h
    rw [if_pos (by omega : w.islands.length > 1)] at h
    split at h <;> rename_i heq <;> rw [halg] at heq <;> cases heq
    split at h
    · exact Option.noConfusion h
    next w₂ heq₂ =>
      have hframe := frame_migrate_all heq₂
      injection h with h
      subst h
      simp only [World.island_at_distance, hframe.len_eq, Nat.zero_add]
  · split
    · omega
    next hcond => exact hcond

/-- C7 witnessed concretely: two islands, Incremental(1); the wrapped value
(1+1) mod 2 = 0 is replaced by 1. -/
theorem c7_witness :
    (incDemoWorld.migrate_individuals_between_islands).map
      (fun w => w.migration_algorithm) = some (.Incremental 1) := by
  obtain ⟨w₁, hm⟩ :
      ∃ w₁, incDemoWorld.migrate_individuals_between_islands = some w₁ :=
    ⟨_, rfl⟩
  have hc := c7_incremental_advances_distance incDemoWorld w₁ 1 (by decide) rfl hm
  rw [hm]
  show some w₁.migration_algorithm = some (.Incremental 1)
  rw [hc.1]
  rfl

/-- select_one_spec: a sorted, non-empty island with an in-range curve always
yields a selection. -/
theorem select_one_spec {σ : Type} (isl : Island) (c : SelectionCurve σ) (s : σ)
    (hsorted : isl.individuals_are_sorted = true)
    (hpos : 0 < isl.individuals.length)
    (hc : CurveInRange c) :
    ∃ x s₁, isl.select_one_individual c s = some (x, s₁) := by
  unfold Island.select_one_individual
  rw [hsorted]
  simp only [Bool.not_true, Bool.false_eq_true, if_false]
  rw [if_neg (by omega)]
  have hidx : (c s isl.individuals.length).1 < isl.individuals.length :=
    hc s _ hpos
  rw [List.getElem?_eq_getElem hidx]
  exact ⟨_, _, rfl⟩

/-- select_and_remove_spec: a sorted, non-empty island with an in-range curve
always yields a removal; the survivor keeps its sorted flag, name, comparison
and future generation, and shrinks by one. -/
theorem select_and_remove_spec {σ : Type} (isl : Island) (c : SelectionCurve σ)
    (s : σ) (hsorted : isl.individuals_are_sorted = true)
    (hpos : 0 < isl.individuals.length)
    (hc : CurveInRange c) :
    ∃ x isl₁ s₁, isl.select_and_remove_one_individual c s = some (x, isl₁, s₁) ∧
      isl₁.individuals.length = isl.individuals.length - 1 ∧
      isl₁.individuals_are_sorted = isl.individuals_are_sorted ∧
      isl₁.future = isl.future := by
  unfold Island.select_and_remove_one_individual
  rw [hsorted]
  simp only [Bool.not_true, Bool.false_eq_true, if_false]
  rw [if_neg (by omega)]
  have hidx : (c s isl.individuals.length).1 < isl.individuals.length :=
    hc s _ hpos
  rw [List.getElem?_eq_getElem hidx]
  refine ⟨_, _, _, rfl, ?_, rfl, rfl⟩
  simp [List.length_eraseIdx, hidx]

/-- islMeasure is the per-island individual count (current plus future), the
summand of totalIndividuals. -/
def islMeasure (i : Island) : Nat := i.individuals.length + i.future.length

/-- sortedOf projects an island option to its sorted flag. -/
def sortedOf (o : Option Island) : Option Bool :=
  o.map (fun i => i.individuals_are_sorted)

/-- curLenOf projects an island option to its current-generation length. -/
def curLenOf (o : Option Island) : Option Nat :=
  o.map (fun i => i.individuals.length)

/-- migrate_one_spec: migrating one individual from a sorted, non-empty
source island to a valid destination succeeds; the total count rises by one
when cloning and is unchanged otherwise, every sorted flag is preserved, no
current generation other than the source's changes length, and the source's
current generation loses one individual exactly when cloning is off. -/
theorem migrate_one_spec {σ : Type} {w : World σ} {src dst : Nat} {isl : Island}
    (hsrc : w.islands[src]? = some isl)
    (hdst : dst < w.islands.length)
    (hsorted : isl.individuals_are_sorted = true)
    (hpos : 0 < isl.individuals.length)
    (hcurve : CurveInRange w.select_for_migration) :
    ∃ w₁, w.migrate_one_individual_from_island_to_island src dst = some w₁ ∧
      w₁.totalIndividuals =
        w.totalIndividuals + (if w.clone_migrated_individuals then 1 else 0) ∧
      (∀ j : Nat, sortedOf (w₁.islands[j]?) = sortedOf (w.islands[j]?)) ∧
      (∀ j : Nat, j ≠ src → curLenOf (w₁.islands[j]?) = curLenOf (w.islands[j]?)) ∧
      curLenOf (w₁.islands[src]?)
        = some (isl.individuals.length -
            (if w.clone_migrated_individuals then 0 else 1)) := by
  have hsrclt : src < w.islands.length := (List.getElem?_eq_some.mp hsrc).1
  unfold World.migrate_one_individual_from_island_to_island
  rw [hsrc]
  cases hclone : w.clone_migrated_individuals with
  | true =>
    obtain ⟨x, s₁, hsel⟩ :=
      select_one_spec isl w.select_for_migration w.genetic_engine.state
        hsorted hpos hcurve
    dsimp only
    rw [hsel]
    dsimp only
    obtain ⟨dest, hdget⟩ : ∃ d, w.islands[dst]? = some d :=
      ⟨w.islands[dst], List.getElem?_eq_getElem hdst⟩
    rw [hdget]
    refine ⟨_, rfl, ?_, ?_, ?_, ?_⟩
    · show ((w.islands.set dst
          (dest.add_individual_to_future_generation x)).map islMeasure).sum
          = (w.islands.map islMeasure).sum + 1
      have hsum := sumMapSet islMeasure w.islands dst
        (dest.add_individual_to_future_generation x) dest hdget
      have hmeas : islMeasure (dest.add_individual_to_future_generation x)
          = islMeasure dest + 1 := by
        simp [islMeasure, Island.add_individual_to_future_generation]
        omega
      rw [hmeas] at hsum
      omega
    · intro j
      show sortedOf ((w.islands.set dst
          (dest.add_individual_to_future_generation x))[j]?) = _
      by_cases hj : dst = j
      · subst hj
        rw [List.getElem?_set_eq hdst, hdget]
        rfl
      · rw [List.getElem?_set_ne hj]
    · intro j _
      show curLenOf ((w.islands.set dst
          (dest.add_individual_to_future_generation x))[j]?) = _
      by_cases hj : dst = j
      · subst hj
        rw [List.getElem?_set_eq hdst, hdget]
        rfl
      · rw [List.getElem?_set_ne hj]
    · show curLenOf ((w.islands.set dst
          (dest.add_individual_to_future_generation x))[src]?) = _
      by_cases hj : dst = src
      · subst hj
        rw [List.getElem?_set_eq hdst]
        rw [hdget] at hsrc
        injection hsrc with hsrc
        subst hsrc
        simp [curLenOf, Island.add_individual_to_future_generation]
      · rw [List.getElem?_set_ne hj, hsrc]
        simp [curLenOf]
  | false =>
    obtain ⟨x, isl₁, s₁, hsel, hlen₁, hflag₁, hfut₁⟩ :=
      select_and_remove_spec isl w.select_for_migration w.genetic_engine.state
        hsorted hpos hcurve
    dsimp only
    rw [hsel]
    dsimp only
    have hdst₂ : dst < (w.islands.set src isl₁).length := by
      rw [List.length_set]; exact hdst
    obtain ⟨dest₂, hdget₂⟩ : ∃ d, (w.islands.set src isl₁)[dst]? = some d :=
      ⟨(w.islands.set src isl₁)[dst], List.getElem?_eq_getElem hdst₂⟩
    rw [hdget₂]
    refine ⟨_, rfl, ?_, ?_, ?_, ?_⟩
    · show (((w.islands.set src isl₁).set dst
          (dest₂.add_individual_to_future_generation x)).map islMeasure).sum
          = (w.islands.map islMeasure).sum + 0
      have hsum₁ := sumMapSet islMeasure w.islands src isl₁ isl hsrc
      have hsum₂ := sumMapSet islMeasure (w.islands.set src isl₁) dst
        (dest₂.add_individual_to_future_generation x) dest₂ hdget₂
      have hmeas₁ : islMeasure isl = islMeasure isl₁ + 1 := by
        simp only [islMeasure, hlen₁, hfut₁]
        omega
      have hmeas₂ : islMeasure (dest₂.add_individual_to_future_generation x)
          = islMeasure dest₂ + 1 := by
        simp [islMeasure, Island.add_individual_to_future_generation]
        omega
      rw [hmeas₂] at hsum₂
      rw [hmeas₁] at hsum₁
      omega
    · intro j
      show sortedOf (((w.islands.set src isl₁).set dst
          (dest₂.add_individual_to_future_generation x))[j]?) = _
      by_cases hj : dst = j
      · subst hj
        rw [List.getElem?_set_eq hdst₂]
        by_cases hj₂ : src = dst
        · subst hj₂
          rw [List.getElem?_set_eq hsrclt] at hdget₂
          injection hdget₂ with hd
          subst hd
          rw [hsrc]
          simp [sortedOf, Island.add_individual_to_future_generation,
            hflag₁, hsorted]
        · rw [List.getElem?_set_ne hj₂] at hdget₂
          rw [hdget₂]
          rfl
      · rw [List.getElem?_set_ne hj]
        by_cases hj₂ : src = j
        · subst hj₂
          rw [List.getElem?_set_eq hsrclt, hsrc]
          simp [sortedOf, hflag₁, hsorted]
        · rw [List.getElem?_set_ne hj₂]
    · intro j hjne
      show curLenOf (((w.islands.set src isl₁).set dst
          (dest₂.add_individual_to_future_generation x))[j]?) = _
      by_cases hj : dst = j
      · subst hj
        rw [List.getElem?_set_eq hdst₂]
        rw [List.getElem?_set_ne (fun h => hjne h.symm)] at hdget₂
        rw [hdget₂]
        rfl
      · rw [List.getElem?_set_ne hj,
          List.getElem?_set_ne (fun h => hjne h.symm)]
    · show curLenOf (((w.islands.set src isl₁).set dst
          (dest₂.add_individual_to_future_generation x))[src]?) = _
      by_cases hj : dst = src
      · subst hj
        rw [List.getElem?_set_eq hdst₂]
        rw [List.getElem?_set_eq hsrclt] at hdget₂
        injection hdget₂ with hd
        subst hd
        simp [curLenOf, Island.add_individual_to_future_generation, hlen₁]
      · rw [List.getElem?_set_ne hj, List.getElem?_set_eq hsrclt]
        simp [curLenOf, hlen₁]

/-- migrateLoop_spec: k migrations between one pair of islands succeed when
the source is sorted and holds at least k individuals; totals change by k
under cloning and not at all otherwise, sorted flags are preserved, and only
the source loses individuals. -/
theorem migrateLoop_spec {σ : Type} :
    ∀ (k : Nat) (w : World σ) (src dst : Nat) (isl : Island),
      w.islands[src]? = some isl →
      dst < w.islands.length →
      isl.individuals_are_sorted = true →
      k ≤ isl.individuals.length →
      CurveInRange w.select_for_migration →
      ∃ w₁, w.migrateLoop src dst k = some w₁ ∧
        w₁.totalIndividuals = w.totalIndividuals +
          (if w.clone_migrated_individuals then k else 0) ∧
        (∀ j : Nat, sortedOf (w₁.islands[j]?) = sortedOf (w.islands[j]?)) ∧
        (∀ j : Nat, j ≠ src →
          curLenOf (w₁.islands[j]?) = curLenOf (w.islands[j]?)) ∧
        curLenOf (w₁.islands[src]?) = some (isl.individuals.length -
          (if w.clone_migrated_individuals then 0 else k)) := by
  intro k
  induction k with
  | zero =>
    intro w src dst isl hsrc _ _ _ _
    refine ⟨w, rfl, by cases w.clone_migrated_individuals <;> simp, fun j => rfl,
      fun j _ => rfl, ?_⟩
    rw [hsrc]
    cases w.clone_migrated_individuals <;> simp [curLenOf]
  | succ k ih =>
    intro w src dst isl hsrc hdst hsorted hk hcurve
    obtain ⟨w₂, hstep, htot₂, hflags₂, hlens₂, hsrlen₂⟩ :=
      migrate_one_spec hsrc hdst hsorted (by omega) hcurve
    have hframe := frame_migrate_one hstep
    obtain ⟨isl₂, hisl₂⟩ : ∃ i₂, w₂.islands[src]? = some i₂ := by
      cases hh : w₂.islands[src]? with
      | none => rw [hh] at hsrlen₂; simp [curLenOf] at hsrlen₂
      | some i₂ => exact ⟨i₂, rfl⟩
    have hisl₂len : isl₂.individuals.length = isl.individuals.length -
        (if w.clone_migrated_individuals then 0 else 1) := by
      rw [hisl₂] at hsrlen₂
      simp [curLenOf] at hsrlen₂
      exact hsrlen₂
    have hisl₂sorted : isl₂.individuals_are_sorted = true := by
      have := hflags₂ src
      rw [hisl₂, hsrc] at this
      simp [sortedOf] at this
      rw [this, hsorted]
    obtain ⟨w₁, hrest, htot₁, hflags₁, hlens₁, hsrlen₁⟩ :=
      ih w₂ src dst isl₂ hisl₂ (by rw [hframe.len_eq]; exact hdst) hisl₂sorted
        (by cases hc : w.clone_migrated_individuals <;>
          rw [hc] at hisl₂len <;> simp at hisl₂len <;> omega)
        (by rw [hframe.cm_eq]; exact hcurve)
    refine ⟨w₁, ?_, ?_, ?_, ?_, ?_⟩
    · simp only [World.migrateLoop, hstep]
      exact hrest
    · rw [htot₁, htot₂, hframe.clone_eq]
      cases w.clone_migrated_individuals <;> simp <;> omega
    · intro j
      exact (hflags₁ j).trans (hflags₂ j)
    · intro j hj
      exact (hlens₁ j hj).trans (hlens₂ j hj)
    · rw [hsrlen₁, hisl₂len, hframe.clone_eq]
      cases w.clone_migrated_individuals <;> simp <;> omega

/-- migrate_one_island_spec: one island's full outbound migration (to the
destination at distance n) succeeds under the same conditions, moving the
configured migrant count. -/
theorem migrate_one_island_spec {σ : Type} {w : World σ} {src n : Nat}
    {isl : Island}
    (hsrc : w.islands[src]? = some isl)
    (hlen : 0 < w.islands.length)
    (hsorted : isl.individuals_are_sorted = true)
    (hcount : w.number_of_individuals_migrating ≤ isl.individuals.length)
    (hcurve : CurveInRange w.select_for_migration) :
    ∃ w₁, w.migrate_one_island_circular_n src n = some w₁ ∧
      w₁.totalIndividuals = w.totalIndividuals +
        (if w.clone_migrated_individuals
          then w.number_of_individuals_migrating else 0) ∧
      (∀ j : Nat, sortedOf (w₁.islands[j]?) = sortedOf (w.islands[j]?)) ∧
      (∀ j : Nat, j ≠ src →
        curLenOf (w₁.islands[j]?) = curLenOf (w.islands[j]?)) := by
  obtain ⟨w₁, hrun, htot, hflags, hlens, hsrclen⟩ :=
    migrateLoop_spec w.number_of_individuals_migrating w src
      (w.island_at_distance src n) isl hsrc
      (by exact Nat.mod_lt _ hlen) hsorted hcount hcurve
  exact ⟨w₁, hrun, htot, hflags, hlens⟩

/-- migrateSeq_spec: a sequence of per-island migrations with pairwise
distinct sources succeeds when every source is sorted and holds at least the
migrant count; the total rises by migrants-per-island times the number of
sources under cloning and stays constant otherwise. -/
theorem migrateSeq_spec {σ : Type} :
    ∀ (pairs : List (Nat × Nat)) (w : World σ),
      CurveInRange w.select_for_migration →
      (pairs.map Prod.fst).Nodup →
      (∀ p ∈ pairs, p.1 < w.islands.length) →
      (∀ p ∈ pairs, sortedOf (w.islands[p.1]?) = some true) →
      (∀ p ∈ pairs, ∃ L, curLenOf (w.islands[p.1]?) = some L ∧
        w.number_of_individuals_migrating ≤ L) →
      ∃ w₁, w.migrateSeq pairs = some w₁ ∧
        w₁.totalIndividuals = w.totalIndividuals +
          (if w.clone_migrated_individuals
            then w.number_of_individuals_migrating * pairs.length else 0) := by
  intro pairs
  induction pairs with
  | nil =>
    intro w _ _ _ _ _
    refine ⟨w, rfl, ?_⟩
    cases w.clone_migrated_individuals <;> simp
  | cons p rest ih =>
    intro w hcurve hnodup hbound hsortedall hcountall
    obtain ⟨s, n⟩ := p
    have hs : s < w.islands.length := hbound (s, n) (List.mem_cons_self _ _)
    obtain ⟨isl, hisl⟩ : ∃ i, w.islands[s]? = some i :=
      ⟨w.islands[s], List.getElem?_eq_getElem hs⟩
    have hsorted : isl.individuals_are_sorted = true := by
      have := hsortedall (s, n) (List.mem_cons_self _ _)
      rw [hisl] at this
      simp [sortedOf] at this
      exact this
    have hcount : w.number_of_individuals_migrating ≤ isl.individuals.length := by
      obtain ⟨L, hL, hLe⟩ := hcountall (s, n) (List.mem_cons_self _ _)
      rw [hisl] at hL
      simp [curLenOf] at hL
      omega
    obtain ⟨w₂, hstep, htot₂, hflags₂, hlens₂⟩ :=
      migrate_one_island_spec hisl (by omega) hsorted hcount hcurve
    have hframe : FrameEq w w₂ := frame_migrate_one_island hstep
    have hsrest : ∀ q ∈ rest, q.1 ≠ s := by
      intro q hq heq
      simp only [List.map_cons, List.nodup_cons] at hnodup
      exact hnodup.1 (heq ▸ List.mem_map_of_mem Prod.fst hq)
    obtain ⟨w₁, hrest, htot₁⟩ := ih w₂
      (by rw [hframe.cm_eq]; exact hcurve)
      (by simp only [List.map_cons, List.nodup_cons] at hnodup; exact hnodup.2)
      (fun q hq => by rw [hframe.len_eq]; exact hbound q (List.mem_cons_of_mem _ hq))
      (fun q hq => by
        rw [hflags₂ q.1]
        exact hsortedall q (List.mem_cons_of_mem _ hq))
      (fun q hq => by
        rw [hlens₂ q.1 (hsrest q hq), hframe.mig_eq]
        exact hcountall q (List.mem_cons_of_mem _ hq))
    refine ⟨w₁, ?_, ?_⟩
    · show (match w.migrate_one_island_circular_n s n with
        | none => none
        | some w₂ => w₂.migrateSeq rest) = some w₁
      rw [hstep]
      exact hrest
    · rw [htot₁, htot₂, hframe.clone_eq, hframe.mig_eq]
      cases w.clone_migrated_individuals <;>
        simp [List.length_cons, Nat.mul_succ] <;> omega

/-- islandsSortedAndBig packages the C5 precondition: every island is sorted
and holds at least the configured migrant count. -/
def islandsSortedAndBig {σ : Type} (w : World σ) : Prop :=
  ∀ isl ∈ w.islands, isl.individuals_are_sorted = true ∧
    w.number_of_individuals_migrating ≤ isl.individuals.length

/-- sorted_big_getElem turns the membership form of the precondition into the
indexed form the sequence lemma consumes. -/
theorem sorted_big_getElem {σ : Type} {w : World σ}
    (h : islandsSortedAndBig w) {j : Nat} (hj : j < w.islands.length) :
    sortedOf (w.islands[j]?) = some true ∧
      ∃ L, curLenOf (w.islands[j]?) = some L ∧
        w.number_of_individuals_migrating ≤ L := by
  have hg : w.islands[j]? = some w.islands[j] := List.getElem?_eq_getElem hj
  have hmem : w.islands[j] ∈ w.islands := List.getElem?_mem hg
  obtain ⟨h1, h2⟩ := h _ hmem
  refine ⟨?_, w.islands[j].individuals.length, ?_, h2⟩
  · rw [hg]; simp [sortedOf, h1]
  · rw [hg]; simp [curLenOf]

/-- migrate_all_spec: a full circular pass at any distance succeeds under the
C5 preconditions and changes the total by migrants-times-island-count under
cloning, not at all otherwise. -/
theorem migrate_all_spec {σ : Type} (w : World σ) (n : Nat)
    (hlen : 0 < w.islands.length)
    (hcurve : CurveInRange w.select_for_migration)
    (hisl : islandsSortedAndBig w) :
    ∃ w₁, w.migrate_all_islands_circular_n n = some w₁ ∧
      w₁.totalIndividuals = w.totalIndividuals +
        (if w.clone_migrated_individuals
          then w.number_of_individuals_migrating * w.islands.length else 0) := by
  have hmap : (((List.range w.islands.length).map (fun s => (s, n))).map
      Prod.fst) = List.range w.islands.length := by
    rw [List.map_map]
    exact List.map_id _
  obtain ⟨w₁, hrun, htot⟩ := migrateSeq_spec
    ((List.range w.islands.length).map (fun s => (s, n))) w hcurve
    (by rw [hmap]; exact List.nodup_range _)
    (fun p hp => by
      obtain ⟨s, hs, heq⟩ := List.mem_map.mp hp
      cases heq
      exact List.mem_range.mp hs)
    (fun p hp => by
      obtain ⟨s, hs, heq⟩ := List.mem_map.mp hp
      cases heq
      exact (sorted_big_getElem hisl (List.mem_range.mp hs)).1)
    (fun p hp => by
      obtain ⟨s, hs, heq⟩ := List.mem_map.mp hp
      cases heq
      exact (sorted_big_getElem hisl (List.mem_range.mp hs)).2)
  refine ⟨w₁, hrun, ?_⟩
  rw [htot]
  simp [List.length_map, List.length_range]

/-- C5: for every migration algorithm except CompletelyRandom, with at least
two islands, an in-range migration curve, a shuffle that permutes its input
(the rand crate contract, needed by RandomCircular), and every island sorted
and holding at least the migrant count, one migration pass completes and the
total number of individuals over all islands (current plus future) grows by
exactly migrants-per-island times the island count when cloning is on, and
is exactly unchanged when cloning is off. -/
theorem c5_migration_conservation {σ : Type} (w : World σ)
    (halg : w.migration_algorithm ≠ .CompletelyRandom)
    (hlen : 2 ≤ w.islands.length)
    (hcurve : CurveInRange w.select_for_migration)
    (hshuffle : ∀ (s : σ) (l : List Nat),
      ((w.genetic_engine.rng.shuffleList s l).1).Perm l)
    (hisl : islandsSortedAndBig w) :
    ∃ w₁, w.migrate_individuals_between_islands = some w₁ ∧
      w₁.totalIndividuals = w.totalIndividuals +
        (if w.clone_migrated_individuals
          then w.number_of_individuals_migrating * w.islands.length else 0) := by
  simp only [World.migrate_individuals_between_islands]
  rw [if_pos (by omega : w.islands.length > 1)]
  cases halgeq : w.migration_algorithm with
  | Circular => exact migrate_all_spec w 1 (by omega) hcurve hisl
  | Cyclical n => exact migrate_all_spec w n (by omega) hcurve hisl
  | Incremental n =>
    obtain ⟨w₂, hrun, htot⟩ := migrate_all_spec w n (by omega) hcurve hisl
    dsimp only
    rw [hrun]
    exact ⟨_, rfl, htot⟩
  | CompletelyRandom => exact absurd halgeq halg
  | RandomCircular =>
    dsimp only [World.random_island_order]
    have hperm := hshuffle w.genetic_engine.state (List.range w.islands.length)
    have horderlen : ((w.genetic_engine.rng.shuffleList w.genetic_engine.state
        (List.range w.islands.length)).1).length = w.islands.length := by
      rw [hperm.length_eq, List.length_range]
    set order := (w.genetic_engine.rng.shuffleList w.genetic_engine.state
      (List.range w.islands.length)).1 with horder
    have hne : order ≠ [] := List.ne_nil_of_length_pos (by omega)
    have hmem : ∀ x ∈ order, x < w.islands.length := by
      intro x hx
      exact List.mem_range.mp (hperm.mem_iff.mp hx)
    have hlastlt : order.getLast hne < w.islands.length :=
      hmem _ (List.getLast_mem hne)
    obtain ⟨ds, hds, hmap, hdslen⟩ :=
      distancesGo_spec w.islands.length (by omega) order (order.getLast hne)
        hlastlt hmem
    have hds' : distances_to_next_island order = some ds := by
      unfold distances_to_next_island
      rw [List.getLast?_eq_getLast order hne, horderlen]
      exact hds
    rw [hds']
    obtain ⟨w₁, hrun, htot⟩ := migrateSeq_spec (order.zip ds)
      ({ w with genetic_engine :=
        { w.genetic_engine with
          state := (w.genetic_engine.rng.shuffleList w.genetic_engine.state
            (List.range w.islands.length)).2 } })
      hcurve
      (by
        rw [List.map_fst_zip order ds (by omega)]
        exact hperm.nodup_iff.mpr (List.nodup_range _))
      (fun p hp => hmem p.1 (List.of_mem_zip hp).1)
      (fun p hp => (sorted_big_getElem hisl
        (hmem p.1 (List.of_mem_zip hp).1)).1)
      (fun p hp => (sorted_big_getElem hisl
        (hmem p.1 (List.of_mem_zip hp).1)).2)
    refine ⟨w₁, hrun, ?_⟩
    rw [htot]
    have hziplen : (order.zip ds).length = w.islands.length := by
      rw [List.length_zip]
      omega
    rw [hziplen]
    rfl

/-- C5 witnessed on the concrete two-island demo world (Circular algorithm,
cloning on, one migrant per island). -/
theorem c5_witness :
    ∃ w₁, demoWorld.migrate_individuals_between_islands = some w₁ ∧
      w₁.totalIndividuals = demoWorld.totalIndividuals +
        (if demoWorld.clone_migrated_individuals
          then demoWorld.number_of_individuals_migrating *
            demoWorld.islands.length
          else 0) :=
  c5_migration_conservation demoWorld (by decide) (by decide)
    (fun s max h => h) (fun s l => List.Perm.refl l)
    (by
      intro isl hisl
      simp only [demoWorld, demoIsland, List.mem_cons,
        List.not_mem_nil, or_false] at hisl
      rcases hisl with h | h <;> subst h <;> exact ⟨rfl, by decide⟩)

/-- EngineCfgEq: two engines agree on everything except possibly the rng
state. -/
structure EngineCfgEq {σ : Type} (e e₁ : GeneticEngine σ) : Prop where
  mut_eq : e₁.mutation_rate = e.mutation_rate
  cross_eq : e₁.crossover_rate = e.crossover_rate
  maxm_eq : e₁.max_mutation_points = e.max_mutation_points
  maxc_eq : e₁.max_crossover_points = e.max_crossover_points
  maxi_eq : e₁.max_individual_points = e.max_individual_points
  rng_eq : e₁.rng = e.rng
  gen_eq : e₁.genetics = e.genetics

/-- engineCfg_state: updating only the rng state preserves the engine
configuration. -/
theorem engineCfg_state {σ : Type} (e : GeneticEngine σ) (st : σ) :
    EngineCfgEq e { e with state := st } := by
  constructor <;> rfl

/-- rand_individual_cfg: drawing a random individual preserves the engine
configuration. -/
theorem rand_individual_cfg {σ : Type} (e : GeneticEngine σ) :
    EngineCfgEq e (e.rand_individual).2 := by
  unfold GeneticEngine.rand_individual
  cases hp : e.genetics.random_individual e.state e.max_individual_points
  constructor <;> rfl

/-- rand_child_cfg: a successful rand_child preserves the engine
configuration. -/
theorem rand_child_cfg {σ : Type} {e e₁ : GeneticEngine σ} {l r x : Nat}
    (h : e.rand_child l r = some (x, e₁)) : EngineCfgEq e e₁ := by
  unfold GeneticEngine.rand_child GeneticEngine.random_zero_to_n at h
  have hov : ¬ 255 < e.mutation_rate + e.crossover_rate := by
    intro hov
    rw [if_pos hov] at h
    exact Option.noConfusion h
  rw [if_neg hov] at h
  by_cases h0 : e.mutation_rate + e.crossover_rate = 0
  · rw [if_pos h0] at h
    exact Option.noConfusion h
  · rw [if_neg h0] at h
    cases hb : e.rng.byte e.state with
    | mk b s₁ =>
      rw [hb] at h
      dsimp only at h
      by_cases hlt : b % (e.mutation_rate + e.crossover_rate) < e.mutation_rate
      · rw [if_pos hlt] at h
        by_cases hm0 : e.max_mutation_points = 0
        · rw [if_pos hm0] at h
          exact Option.noConfusion h
        · rw [if_neg hm0] at h
          cases hb₂ : e.rng.byte s₁ with
          | mk p s₂ =>
            simp only [hb₂] at h
            cases hmu : e.genetics.mutate s₂ l (p % e.max_mutation_points + 1) with
            | mk child s₃ =>
              simp only [hmu] at h
              injection h with h
              simp only [Prod.mk.injEq] at h
              obtain ⟨h1, h2⟩ := h
              subst h2
              constructor <;> rfl
      · rw [if_neg hlt] at h
        by_cases hc0 : e.max_crossover_points = 0
        · rw [if_pos hc0] at h
          exact Option.noConfusion h
        · rw [if_neg hc0] at h
          cases hb₂ : e.rng.byte s₁ with
          | mk p s₂ =>
            simp only [hb₂] at h
            cases hcr : e.genetics.crossover s₂ l r (p % e.max_crossover_points + 1) with
            | mk child s₃ =>
              simp only [hcr] at h
              injection h with h
              simp only [Prod.mk.injEq] at h
              obtain ⟨h1, h2⟩ := h
              subst h2
              constructor <;> rfl

/-- rand_child_some: rand_child succeeds whenever the rate sum is positive,
fits the u8 addition (at most 255), and each operation that can be drawn
has a positive point bound — the point bounds are exactly what
GeneticEngineBuilder.build admits when the rate sum is positive. -/
theorem rand_child_some {σ : Type} (e : GeneticEngine σ) (l r : Nat)
    (hmc : 0 < e.mutation_rate + e.crossover_rate)
    (hle : e.mutation_rate + e.crossover_rate ≤ 255)
    (hm : 0 < e.mutation_rate → 0 < e.max_mutation_points)
    (hc : 0 < e.crossover_rate → 0 < e.max_crossover_points) :
    ∃ x e₁, e.rand_child l r = some (x, e₁) := by
  unfold GeneticEngine.rand_child GeneticEngine.random_zero_to_n
  rw [if_neg (show ¬ 255 < e.mutation_rate + e.crossover_rate by omega)]
  rw [if_neg (show ¬ e.mutation_rate + e.crossover_rate = 0 by omega)]
  cases hb : e.rng.byte e.state with
  | mk b s₁ =>
    dsimp only
    by_cases hlt : b % (e.mutation_rate + e.crossover_rate) < e.mutation_rate
    · rw [if_pos hlt,
        if_neg (by have := hm (by omega); omega : ¬ e.max_mutation_points = 0)]
      cases hb₂ : e.rng.byte s₁
      exact ⟨_, _, rfl⟩
    · rw [if_neg hlt]
      have hcpos : 0 < e.crossover_rate := by
        have hmod : b % (e.mutation_rate + e.crossover_rate) <
            e.mutation_rate + e.crossover_rate := Nat.mod_lt _ hmc
        omega
      rw [if_neg (by have := hc hcpos; omega : ¬ e.max_crossover_points = 0)]
      cases hb₂ : e.rng.byte s₁
      exact ⟨_, _, rfl⟩

/-- EngineCfgEq is transitive. -/
theorem engineCfgEq_trans {σ : Type} {e₁ e₂ e₃ : GeneticEngine σ}
    (h₁ : EngineCfgEq e₁ e₂) (h₂ : EngineCfgEq e₂ e₃) : EngineCfgEq e₁ e₃ :=
  ⟨h₂.mut_eq.trans h₁.mut_eq, h₂.cross_eq.trans h₁.cross_eq,
    h₂.maxm_eq.trans h₁.maxm_eq, h₂.maxc_eq.trans h₁.maxc_eq,
    h₂.maxi_eq.trans h₁.maxi_eq, h₂.rng_eq.trans h₁.rng_eq,
    h₂.gen_eq.trans h₁.gen_eq⟩

/-- fill_step_frame: one fill iteration (an engine draw plus one island
update) preserves the frame. -/
theorem fill_step_frame {σ : Type} (w : World σ) (id : Nat) (island₁ : Island)
    (ge₃ : GeneticEngine σ) (hcfg : EngineCfgEq w.genetic_engine ge₃) :
    FrameEq w
      { w with
        genetic_engine := ge₃
        islands := w.islands.set id island₁ } := by
  constructor
  case len_eq => simp
  case emut_eq => exact hcfg.mut_eq
  case ecross_eq => exact hcfg.cross_eq
  case emaxm_eq => exact hcfg.maxm_eq
  case emaxc_eq => exact hcfg.maxc_eq
  case emaxi_eq => exact hcfg.maxi_eq
  case erng_eq => exact hcfg.rng_eq
  case egen_eq => exact hcfg.gen_eq
  all_goals rfl

/-- fillIslandLoop_post: whatever a completed fill loop returns, the frame
is preserved, no other island changed, and the target island (when it
started within capacity) ends with a full future generation and an
untouched current generation. -/
theorem fillIslandLoop_post {σ : Type} :
    ∀ (fuel : Nat) (w w₁ : World σ) (id er : Nat),
      w.fillIslandLoop id er fuel = some w₁ →
      FrameEq w w₁ ∧
      (∀ j : Nat, j ≠ id → w₁.islands[j]? = w.islands[j]?) ∧
      (∀ isl, w.islands[id]? = some isl →
        isl.future.length ≤ w.individuals_per_island →
        ∃ isl₁, w₁.islands[id]? = some isl₁ ∧
          isl₁.future.length = w.individuals_per_island ∧
          isl₁.individuals = isl.individuals ∧
          isl₁.individuals_are_sorted = isl.individuals_are_sorted) := by
  intro fuel
  induction fuel with
  | zero =>
    intro w w₁ id er h
    rw [World.fillIslandLoop] at h
    split at h
    · exact Option.noConfusion h
    next island hid =>
      split at h
      · exact Option.noConfusion h
      next hge =>
        injection h with h
        subst h
        refine ⟨FrameEq.refl w, fun j _ => rfl, ?_⟩
        intro isl hisl hle
        rw [hid] at hisl
        injection hisl with hisl
        subst hisl
        exact ⟨island, hid, by omega, rfl, rfl⟩
  | succ k ih =>
    intro w w₁ id er h
    rw [World.fillIslandLoop] at h
    split at h
    · exact Option.noConfusion h
    next island hid =>
      have hidlt : id < w.islands.length := (List.getElem?_eq_some.mp hid).1
      split at h
      case isFalse hge =>
        injection h with h
        subst h
        refine ⟨FrameEq.refl w, fun j _ => rfl, ?_⟩
        intro isl hisl hle
        rw [hid] at hisl
        injection hisl with hisl
        subst hisl
        exact ⟨island, hid, by omega, rfl, rfl⟩
      case isTrue hlt =>
        dsimp only at h
        split at h
        · exact Option.noConfusion h
        next next ge₃ heqn =>
          obtain ⟨hframe₁, huntouched₁, hisland₁⟩ := ih _ w₁ id _ h
          have hcfg : EngineCfgEq w.genetic_engine ge₃ := by
            by_cases hlen0 : island.len = 0
            · rw [if_pos hlen0] at heqn
              injection heqn with heqn
              have h2 := congrArg Prod.snd heqn
              dsimp at h2
              rw [← h2]
              exact rand_individual_cfg _
            · rw [if_neg hlen0] at heqn
              by_cases her : 0 < er
              · rw [if_pos her] at heqn
                rw [if_pos
                  (show ((true, er - 1) : Bool × Nat).1 = true from rfl)] at heqn
                split at heqn
                · exact Option.noConfusion heqn
                next elite s₁ heqsel =>
                  injection heqn with heqn
                  have h2 := congrArg Prod.snd heqn
                  dsimp at h2
                  rw [← h2]
                  exact engineCfg_state _ _
              · rw [if_neg her] at heqn
                rw [if_neg
                  (show ¬ ((false, er) : Bool × Nat).1 = true from by
                    simp)] at heqn
                split at heqn
                · exact Option.noConfusion heqn
                next left s₁ heqsel₁ =>
                  split at heqn
                  · exact Option.noConfusion heqn
                  next right s₂ heqsel₂ =>
                    have hrc := rand_child_cfg heqn
                    exact engineCfgEq_trans (by constructor <;> rfl) hrc
          have hstep := fill_step_frame w id
            (island.add_individual_to_future_generation next) ge₃ hcfg
          refine ⟨frameEq_trans hstep hframe₁, ?_, ?_⟩
          · intro j hj
            rw [huntouched₁ j hj]
            show (w.islands.set id
              (island.add_individual_to_future_generation next))[j]?
              = w.islands[j]?
            exact List.getElem?_set_ne (fun hh => hj hh.symm)
          · intro isl hisl hle
            rw [hid] at hisl
            injection hisl with hisl
            subst hisl
            obtain ⟨isl₁, hgot, hflen, hind, hsort⟩ := hisland₁
              (island.add_individual_to_future_generation next)
              (by
                show (w.islands.set id _)[id]? = _
                rw [List.getElem?_set_eq hidlt])
              (by
                show (island.future ++ [next]).length ≤ w.individuals_per_island
                rw [List.length_append]
                simp only [List.length_cons, List.length_nil]
                omega)
            exact ⟨isl₁, hgot, hflen, hind, hsort⟩

/-- advance_inv: a successful advance_island_generation comes from an
existing island and replaces it by its advanced form. -/
theorem advance_inv {σ : Type} {w w₃ : World σ} {id : Nat}
    (h : w.advance_island_generation id = some w₃) :
    ∃ isl₂, w.islands[id]? = some isl₂ ∧
      w₃ = { w with islands := w.islands.set id isl₂.advance_generation } := by
  unfold World.advance_island_generation at h
  cases hg : w.islands[id]? with
  | none => rw [hg] at h; exact Option.noConfusion h
  | some isl₂ =>
    rw [hg] at h
    injection h with h
    exact ⟨isl₂, rfl, h.symm⟩

/-- fillIslandsFrom_post: after filling a list of pairwise distinct island
ids, the frame is preserved, ids outside the list are untouched, and every
processed island whose future generation started within capacity ends with a
full current generation and an empty future generation. -/
theorem fillIslandsFrom_post {σ : Type} :
    ∀ (ids : List Nat) (w w₁ : World σ),
      ids.Nodup →
      w.fillIslandsFrom ids = some w₁ →
      FrameEq w w₁ ∧
      (∀ j : Nat, j ∉ ids → w₁.islands[j]? = w.islands[j]?) ∧
      (∀ id ∈ ids, ∀ isl, w.islands[id]? = some isl →
        isl.future.length ≤ w.individuals_per_island →
        ∃ isl₁, w₁.islands[id]? = some isl₁ ∧
          isl₁.individuals.length = w.individuals_per_island ∧
          isl₁.future = []) := by
  intro ids
  induction ids with
  | nil =>
    intro w w₁ _ h
    simp only [World.fillIslandsFrom, Option.some.injEq] at h
    subst h
    exact ⟨FrameEq.refl w, fun j _ => rfl, fun id hid => absurd hid
      (List.not_mem_nil id)⟩
  | cons id rest ih =>
    intro w w₁ hnodup h
    simp only [World.fillIslandsFrom] at h
    split at h
    · exact Option.noConfusion h
    next w₂ hloop =>
      split at h
      · exact Option.noConfusion h
      next w₃ hadv =>
        obtain ⟨hframe₂, huntouched₂, hisland₂⟩ :=
          fillIslandLoop_post _ w w₂ id _ hloop
        obtain ⟨isl₂, hget₂, hw₃⟩ := advance_inv hadv
        have hidlt₂ : id < w₂.islands.length := (List.getElem?_eq_some.mp hget₂).1
        have hframe₃ : FrameEq w₂ w₃ := by
          subst hw₃
          constructor <;> simp
        have hnodup₂ : rest.Nodup := (List.nodup_cons.mp hnodup).2
        have hidnotin : id ∉ rest := (List.nodup_cons.mp hnodup).1
        obtain ⟨hframe₁, huntouched₁, hisland₁⟩ := ih w₃ w₁ hnodup₂ h
        refine ⟨frameEq_trans (frameEq_trans hframe₂ hframe₃) hframe₁, ?_, ?_⟩
        · intro j hj
          have hj₁ : j ∉ rest := fun hh => hj (List.mem_cons_of_mem _ hh)
          have hj₂ : j ≠ id := fun hh => hj (hh ▸ List.mem_cons_self _ _)
          rw [huntouched₁ j hj₁, hw₃]
          show (w₂.islands.set id isl₂.advance_generation)[j]? = _
          rw [List.getElem?_set_ne (fun hh => hj₂ hh.symm)]
          exact huntouched₂ j hj₂
        · intro id' hid' isl hisl hle
          rcases List.mem_cons.mp hid' with heq | hmem
          · subst heq
            obtain ⟨isl₁, hgot₁, hflen₁, hind₁, hsort₁⟩ :=
              hisland₂ isl hisl hle
            have hgot₂ : isl₁ = isl₂ := by
              rw [hgot₁] at hget₂
              injection hget₂
            subst hgot₂
            have hw₃get : w₃.islands[id']? = some isl₁.advance_generation := by
              rw [hw₃]
              show (w₂.islands.set id' isl₁.advance_generation)[id']? = _
              rw [List.getElem?_set_eq hidlt₂]
            have hfinal : w₁.islands[id']? = some isl₁.advance_generation := by
              rw [huntouched₁ id' hidnotin]
              exact hw₃get
            refine ⟨isl₁.advance_generation, hfinal, ?_, rfl⟩
            show isl₁.future.length = w.individuals_per_island
            exact hflen₁
          · have hne : id' ≠ id := fun hh => hidnotin (hh ▸ hmem)
            have hw₃get : w₃.islands[id']? = w.islands[id']? := by
              rw [hw₃]
              show (w₂.islands.set id isl₂.advance_generation)[id']? = _
              rw [List.getElem?_set_ne (fun hh => hne hh.symm)]
              exact huntouched₂ id' hne
            obtain ⟨isl₁, hgot₁, hlen₁, hfut₁⟩ := hisland₁ id' hmem isl
              (by rw [hw₃get]; exact hisl)
              (by
                have := hframe₂.cap_eq
                have := hframe₃.cap_eq
                omega)
            refine ⟨isl₁, hgot₁, ?_, hfut₁⟩
            rw [hlen₁, hframe₃.cap_eq, hframe₂.cap_eq]

/-- C4: for every world whose non-empty islands are sorted and whose future
generations do not already exceed individuals_per_island, once
fill_all_islands returns successfully every island holds exactly
individuals_per_island individuals in its current generation and an empty
future generation — for every elite_individuals_per_generation value, since
the world is arbitrary. -/
theorem c4_fill_all_islands_exact_population {σ : Type} (w w₁ : World σ)
    (hpre : ∀ isl ∈ w.islands,
      (isl.individuals ≠ [] → isl.individuals_are_sorted = true) ∧
      isl.future.length ≤ w.individuals_per_island)
    (h : w.fill_all_islands = some w₁) :
    ∀ isl₁ ∈ w₁.islands,
      isl₁.individuals.length = w.individuals_per_island ∧ isl₁.future = [] := by
  obtain ⟨hframe, huntouched, hisland⟩ := fillIslandsFrom_post
    (List.range w.islands.length) w w₁ (List.nodup_range _) h
  intro isl₁ hmem
  obtain ⟨j, hj⟩ := List.mem_iff_getElem?.mp hmem
  have hjlt : j < w₁.islands.length := (List.getElem?_eq_some.mp hj).1
  have hjlt₂ : j < w.islands.length := by
    rw [← hframe.len_eq]
    exact hjlt
  have hg : w.islands[j]? = some w.islands[j] := List.getElem?_eq_getElem hjlt₂
  have hmem₂ : w.islands[j] ∈ w.islands := List.getElem?_mem hg
  obtain ⟨isl₂, hgot, hlen, hfut⟩ := hisland j (List.mem_range.mpr hjlt₂)
    w.islands[j] hg (hpre _ hmem₂).2
  rw [hj] at hgot
  injection hgot with hgot
  subst hgot
  exact ⟨hlen, hfut⟩

/-- C4 witnessed: filling the two empty demo islands yields exactly two
individuals per island and empty future generations. -/
theorem c4_witness :
    ∃ w₁, emptyWorld.fill_all_islands = some w₁ ∧
      ∀ isl₁ ∈ w₁.islands,
        isl₁.individuals.length = emptyWorld.individuals_per_island ∧
        isl₁.future = [] := by
  have hS : emptyWorld.fill_all_islands.isSome = true := by decide
  obtain ⟨w₁, hf⟩ := Option.isSome_iff_exists.mp hS
  refine ⟨w₁, hf, c4_fill_all_islands_exact_population emptyWorld w₁ ?_ hf⟩
  intro isl hisl
  simp only [emptyWorld, demoWorld, demoIsland, List.mem_cons,
    List.not_mem_nil, or_false] at hisl
  rcases hisl with h | h <;> subst h <;>
    exact ⟨fun hne => absurd rfl hne, by decide⟩

/-- gen_migrate_between: a full migration pass never touches the generation
counter. -/
theorem gen_migrate_between {σ : Type} {w w₁ : World σ}
    (h : w.migrate_individuals_between_islands = some w₁) :
    w₁.generation_count = w.generation_count := by
  simp only [World.migrate_individuals_between_islands] at h
  split at h
  case isTrue =>
    split at h
    · exact (frame_migrate_all h).gen_eq
    · exact (frame_migrate_all h).gen_eq
    · split at h
      · exact Option.noConfusion h
      next w₂ heq =>
        injection h with h
        subst h
        exact (frame_migrate_all heq).gen_eq
    · dsimp only [World.random_island_order] at h
      split at h
      · exact Option.noConfusion h
      next ds heq => exact (frame_migrateSeq _ _ _ h).gen_eq
    · exact (frame_crSourceLoop _ _ _ _ h).gen_eq
  case isFalse =>
    injection h with h
    subst h
    rfl

/-- gen_fill: fill_all_islands never touches the generation counter. -/
theorem gen_fill {σ : Type} {w w₁ : World σ}
    (h : w.fill_all_islands = some w₁) :
    w₁.generation_count = w.generation_count :=
  (fillIslandsFrom_post _ w w₁ (List.nodup_range _) h).1.gen_eq

/-- gen_run_one: run_one_generation never touches the generation counter. -/
theorem gen_run_one {σ : Type} {w w₁ : World σ}
    (h : w.run_one_generation = some w₁) :
    w₁.generation_count = w.generation_count := by
  simp only [World.run_one_generation] at h
  split at h
  case isTrue =>
    split at h
    · exact Option.noConfusion h
    next hrem =>
      split at h
      case isTrue =>
        split at h
        · exact Option.noConfusion h
        next w₃ heq =>
          injection h with h
          subst h
          have h3 := gen_migrate_between heq
          exact h3
      case isFalse =>
        injection h with h
        subst h
        rfl
  case isFalse =>
    injection h with h
    subst h
    rfl

/-- gen_run_bounded: any number of observed fill-run rounds never touches
the generation counter. -/
theorem gen_run_bounded {σ : Type} :
    ∀ (fuel : Nat) (w w₁ : World σ) (while_fn : World σ → Bool),
      w.runGenerationsBounded while_fn fuel = some w₁ →
      w₁.generation_count = w.generation_count := by
  intro fuel
  induction fuel with
  | zero =>
    intro w w₁ while_fn h
    exact Option.noConfusion h
  | succ k ih =>
    intro w w₁ while_fn h
    simp only [World.runGenerationsBounded] at h
    split at h
    · exact Option.noConfusion h
    next w₂ heq₁ =>
      split at h
      · exact Option.noConfusion h
      next w₃ heq₂ =>
        split at h
        · exact ((ih w₃ w₁ while_fn h).trans (gen_run_one heq₂)).trans
            (gen_fill heq₁)
        · injection h with h
          subst h
          exact (gen_run_one heq₂).trans (gen_fill heq₁)

/-- C9: every reachable world reports generation_count() = 0 — the field is
initialized to zero by World::new and no public operation ever modifies
it. -/
theorem c9_generation_count_always_zero {σ : Type} (w : World σ)
    (h : Reachable w) : w.generation_count_fn = 0 := by
  induction h with
  | build b w hb =>
    show w.generation_count = 0
    simp only [WorldBuilder.build] at hb
    split at hb
    · exact Except.noConfusion hb
    · split at hb
      · exact Except.noConfusion hb
      · split at hb
        · exact Except.noConfusion hb
        · split at hb
          · exact Except.noConfusion hb
          next ge heq =>
            injection hb with hb
            subst hb
            rfl
  | fill w w₁ _ hstep ih => exact (gen_fill hstep).trans ih
  | runOne w w₁ _ hstep ih => exact (gen_run_one hstep).trans ih
  | migrate w w₁ _ hstep ih => exact (gen_migrate_between hstep).trans ih
  | runWhile w w₁ while_fn fuel _ hstep ih =>
    exact (gen_run_bounded fuel w w₁ while_fn hstep).trans ih

/-- demoBuilder is a concrete one-island builder accepted by
WorldBuilder.build. -/
def demoBuilder : WorldBuilder Nat :=
  { select_for_migration := curveFirst, select_as_parent := curveFirst,
    select_as_elite := curveFirst, genetic_engine := some natEngine,
    islands := [demoIsland [] false] }

/-- C9 witnessed: the world demoBuilder builds is reachable and its counter
reads zero. -/
theorem c9_witness : (World.new demoBuilder natEngine).generation_count_fn = 0 :=
  c9_generation_count_always_zero _ (Reachable.build demoBuilder _ rfl)

/-- EngineValid packages the reproduction-engine configuration under which
rand_child cannot abort: a rate sum that is positive and fits the u8
addition of src/genetic_engine.rs:57 (at most 255), and a positive point
bound for every drawable operation (the point bounds are exactly what
GeneticEngineBuilder.build enforces). -/
def EngineValid {σ : Type} (e : GeneticEngine σ) : Prop :=
  0 < e.mutation_rate + e.crossover_rate ∧
  e.mutation_rate + e.crossover_rate ≤ 255 ∧
  (0 < e.mutation_rate → 0 < e.max_mutation_points) ∧
  (0 < e.crossover_rate → 0 < e.max_crossover_points)

/-- EngineValid transfers along EngineCfgEq. -/
theorem EngineValid_cfg {σ : Type} {e e₁ : GeneticEngine σ}
    (hc : EngineCfgEq e e₁) (hv : EngineValid e) : EngineValid e₁ := by
  obtain ⟨h1, h2, h3, h4⟩ := hv
  refine ⟨?_, ?_, ?_, ?_⟩
  · rw [hc.mut_eq, hc.cross_eq]; exact h1
  · rw [hc.mut_eq, hc.cross_eq]; exact h2
  · rw [hc.mut_eq, hc.maxm_eq]; exact h3
  · rw [hc.cross_eq, hc.maxc_eq]; exact h4

/-- EngineValid transfers along FrameEq. -/
theorem EngineValid_frame {σ : Type} {w w₁ : World σ}
    (hf : FrameEq w w₁) (hv : EngineValid w.genetic_engine) :
    EngineValid w₁.genetic_engine := by
  obtain ⟨h1, h2, h3, h4⟩ := hv
  refine ⟨?_, ?_, ?_, ?_⟩
  · rw [hf.emut_eq, hf.ecross_eq]; exact h1
  · rw [hf.emut_eq, hf.ecross_eq]; exact h2
  · rw [hf.emut_eq, hf.emaxm_eq]; exact h3
  · rw [hf.ecross_eq, hf.emaxc_eq]; exact h4

/-- fillIslandLoop_some: with the island either empty or sorted, in-range
parent and elite curves, and a valid engine, the fill loop cannot hit a
failed unwrap, for any elite counter and any fuel covering the remaining
slots. -/
theorem fillIslandLoop_some {σ : Type} :
    ∀ (fuel : Nat) (w : World σ) (id er : Nat) (isl : Island),
      w.islands[id]? = some isl →
      (isl.individuals = [] ∨ isl.individuals_are_sorted = true) →
      CurveInRange w.select_as_parent →
      CurveInRange w.select_as_elite →
      EngineValid w.genetic_engine →
      w.individuals_per_island ≤ fuel + isl.future.length →
      ∃ w₁, w.fillIslandLoop id er fuel = some w₁ := by
  intro fuel
  induction fuel with
  | zero =>
    intro w id er isl hid _ _ _ _ hfuel
    refine ⟨w, ?_⟩
    simp only [World.fillIslandLoop]
    rw [hid]
    dsimp only
    rw [if_neg (by omega : ¬ isl.future.length < w.individuals_per_island)]
  | succ k ih =>
    intro w id er isl hid hsorted hcp hce hval hfuel
    have hidlt : id < w.islands.length := (List.getElem?_eq_some.mp hid).1
    by_cases hlt : isl.future.length < w.individuals_per_island
    · simp only [World.fillIslandLoop]
      rw [hid]
      dsimp only
      rw [if_pos hlt]
      by_cases hempty : isl.len = 0
      · rw [if_pos hempty]
        cases hri : w.genetic_engine.rand_individual with
        | mk nxt ge₃ =>
          obtain ⟨w₁, hw₁⟩ := ih
            { w with
              genetic_engine := ge₃
              islands := w.islands.set id
                (isl.add_individual_to_future_generation nxt) }
            id _ (isl.add_individual_to_future_generation nxt)
            (by
              show (w.islands.set id _)[id]? = _
              rw [List.getElem?_set_eq hidlt])
            (by
              show isl.individuals = [] ∨ isl.individuals_are_sorted = true
              exact hsorted)
            hcp hce
            (by
              have hc := rand_individual_cfg w.genetic_engine
              rw [hri] at hc
              exact EngineValid_cfg hc hval)
            (by
              show w.individuals_per_island ≤ k + (isl.future ++ [nxt]).length
              rw [List.length_append]
              simp only [List.length_cons, List.length_nil]
              omega)
          exact ⟨w₁, hw₁⟩
      · rw [if_neg hempty]
        have hsorted₂ : isl.individuals_are_sorted = true := by
          rcases hsorted with h | h
          · exact absurd (by rw [Island.len, h]; rfl) hempty
          · exact h
        have hpos : 0 < isl.individuals.length := by
          rw [Island.len] at hempty
          omega
        by_cases her : 0 < er
        · rw [if_pos her,
            if_pos (show ((true, er - 1) : Bool × Nat).1 = true from rfl)]
          obtain ⟨x, s₁, hsel⟩ := select_one_spec isl w.select_as_elite
            w.genetic_engine.state hsorted₂ hpos hce
          rw [hsel]
          obtain ⟨w₁, hw₁⟩ := ih
            { w with
              genetic_engine := { w.genetic_engine with state := s₁ }
              islands := w.islands.set id
                (isl.add_individual_to_future_generation x) }
            id _ (isl.add_individual_to_future_generation x)
            (by
              show (w.islands.set id _)[id]? = _
              rw [List.getElem?_set_eq hidlt])
            (by
              show isl.individuals = [] ∨ isl.individuals_are_sorted = true
              exact hsorted)
            hcp hce
            (EngineValid_cfg (engineCfg_state _ _) hval)
            (by
              show w.individuals_per_island ≤ k + (isl.future ++ [x]).length
              rw [List.length_append]
              simp only [List.length_cons, List.length_nil]
              omega)
          exact ⟨w₁, hw₁⟩
        · rw [if_neg her,
            if_neg (show ¬ ((false, er) : Bool × Nat).1 = true from by simp)]
          obtain ⟨left, s₁, hsel₁⟩ := select_one_spec isl w.select_as_parent
            w.genetic_engine.state hsorted₂ hpos hcp
          rw [hsel₁]
          dsimp only
          obtain ⟨right, s₂, hsel₂⟩ := select_one_spec isl w.select_as_parent
            s₁ hsorted₂ hpos hcp
          rw [hsel₂]
          dsimp only
          obtain ⟨x, e₁, hrc⟩ := rand_child_some
            { w.genetic_engine with state := s₂ } left right
            hval.1 hval.2.1 hval.2.2.1 hval.2.2.2
          rw [hrc]
          obtain ⟨w₁, hw₁⟩ := ih
            { w with
              genetic_engine := e₁
              islands := w.islands.set id
                (isl.add_individual_to_future_generation x) }
            id _ (isl.add_individual_to_future_generation x)
            (by
              show (w.islands.set id _)[id]? = _
              rw [List.getElem?_set_eq hidlt])
            (by
              show isl.individuals = [] ∨ isl.individuals_are_sorted = true
              exact hsorted)
            hcp hce
            (EngineValid_cfg
              (engineCfgEq_trans (engineCfg_state _ s₂) (rand_child_cfg hrc))
              hval)
            (by
              show w.individuals_per_island ≤ k + (isl.future ++ [x]).length
              rw [List.length_append]
              simp only [List.length_cons, List.length_nil]
              omega)
          exact ⟨w₁, hw₁⟩
    · refine ⟨w, ?_⟩
      simp only [World.fillIslandLoop]
      rw [hid]
      dsimp only
      rw [if_neg hlt]

/-- fillIslandsFrom_some: filling a list of pairwise distinct islands, each
empty or sorted, with in-range curves and a valid engine, always succeeds. -/
theorem fillIslandsFrom_some {σ : Type} :
    ∀ (ids : List Nat) (w : World σ),
      ids.Nodup →
      (∀ id ∈ ids, ∃ isl, w.islands[id]? = some isl ∧
        (isl.individuals = [] ∨ isl.individuals_are_sorted = true)) →
      CurveInRange w.select_as_parent →
      CurveInRange w.select_as_elite →
      EngineValid w.genetic_engine →
      ∃ w₁, w.fillIslandsFrom ids = some w₁ := by
  intro ids
  induction ids with
  | nil =>
    intro w _ _ _ _ _
    exact ⟨w, rfl⟩
  | cons id rest ih =>
    intro w hnodup hislands hcp hce hval
    obtain ⟨isl, hid, hsorted⟩ := hislands id (List.mem_cons_self _ _)
    obtain ⟨w₂, hloop⟩ := fillIslandLoop_some w.individuals_per_island w id
      w.elite_individuals_per_generation isl hid hsorted hcp hce hval
      (by omega)
    obtain ⟨hframe₂, huntouched₂, _⟩ := fillIslandLoop_post _ w w₂ id _ hloop
    have hidlt₂ : id < w₂.islands.length := by
      rw [hframe₂.len_eq]
      exact (List.getElem?_eq_some.mp hid).1
    have hget₂ : w₂.islands[id]? = some w₂.islands[id] :=
      List.getElem?_eq_getElem hidlt₂
    have hadv : w₂.advance_island_generation id = some
        { w₂ with
          islands := w₂.islands.set id (w₂.islands[id]).advance_generation } := by
      unfold World.advance_island_generation
      rw [hget₂]
      rfl
    have hframe₃ : FrameEq w₂
        ({ w₂ with
           islands := w₂.islands.set id (w₂.islands[id]).advance_generation }) := by
      constructor <;> simp
    have hframe := frameEq_trans hframe₂ hframe₃
    obtain ⟨w₁, hrest⟩ := ih
      { w₂ with
        islands := w₂.islands.set id (w₂.islands[id]).advance_generation }
      (List.nodup_cons.mp hnodup).2
      (by
        intro id₂ hid₂
        have hne : id₂ ≠ id := by
          intro hh
          exact (List.nodup_cons.mp hnodup).1 (hh ▸ hid₂)
        obtain ⟨isl₂, hisl₂, hsorted₂⟩ := hislands id₂
          (List.mem_cons_of_mem _ hid₂)
        refine ⟨isl₂, ?_, hsorted₂⟩
        show (w₂.islands.set id _)[id₂]? = some isl₂
        rw [List.getElem?_set_ne (fun hh => hne hh.symm)]
        rw [huntouched₂ id₂ hne]
        exact hisl₂)
      (by
        have h₂ := hframe.cp_eq
        rw [h₂]
        exact hcp)
      (by
        have h₂ := hframe.ce_eq
        rw [h₂]
        exact hce)
      (EngineValid_frame hframe hval)
    refine ⟨w₁, ?_⟩
    show (match w.fillIslandLoop id w.elite_individuals_per_generation
        w.individuals_per_island with
      | none => none
      | some w₂ =>
        match w₂.advance_island_generation id with
        | none => none
        | some w₃ => w₃.fillIslandsFrom rest) = some w₁
    rw [hloop]
    dsimp only
    rw [hadv]
    exact hrest

/-- C10: the first conjunct shows the unstated fill precondition suffices —
for every world whose islands are each empty or sorted (plus the in-range
curve contract and a valid engine: a rate sum that is positive and fits the
u8 addition, with positive point bounds) the internal selection unwraps and
rand_child aborts of fill_all_islands are unreachable and the call returns
successfully.  The
second conjunct shows the precondition is real: filling the concrete empty
two-island world once succeeds and leaves every island non-empty with the
sorted flag cleared (advance_generation resets it), and calling
fill_all_islands again on that result aborts on the failed selection unwrap
(modelled as `none`). -/
theorem c10_fill_sorted_precondition :
    (∀ (σ : Type) (w : World σ),
      (∀ isl ∈ w.islands,
        isl.individuals = [] ∨ isl.individuals_are_sorted = true) →
      CurveInRange w.select_as_parent →
      CurveInRange w.select_as_elite →
      EngineValid w.genetic_engine →
      ∃ w₁, w.fill_all_islands = some w₁) ∧
    (∃ w₁, emptyWorld.fill_all_islands = some w₁ ∧
      (∃ isl ∈ w₁.islands,
        isl.individuals ≠ [] ∧ isl.individuals_are_sorted = false) ∧
      w₁.fill_all_islands = none) := by
  constructor
  · intro σ w hsorted hcp hce hval
    exact fillIslandsFrom_some (List.range w.islands.length) w
      (List.nodup_range _)
      (fun id hid => by
        have hlt : id < w.islands.length := List.mem_range.mp hid
        have hg : w.islands[id]? = some w.islands[id] :=
          List.getElem?_eq_getElem hlt
        exact ⟨w.islands[id], hg, hsorted _ (List.getElem?_mem hg)⟩)
      hcp hce hval
  · have hS : emptyWorld.fill_all_islands.isSome = true := by decide
    obtain ⟨w₁, hf⟩ := Option.isSome_iff_exists.mp hS
    have hproj : (emptyWorld.fill_all_islands.map (fun w =>
        w.islands.map (fun i =>
          (i.individuals.length, i.individuals_are_sorted))))
        = some [(2, false), (2, false)] := by decide
    rw [hf] at hproj
    have hlist : w₁.islands.map (fun i =>
        (i.individuals.length, i.individuals_are_sorted))
        = [(2, false), (2, false)] := by
      injection hproj
    have hnone : (emptyWorld.fill_all_islands.bind
        World.fill_all_islands).isNone = true := by decide
    rw [hf] at hnone
    refine ⟨w₁, hf, ?_, Option.isNone_iff_eq_none.mp hnone⟩
    cases hisl : w₁.islands with
    | nil => rw [hisl] at hlist; exact absurd hlist (by simp)
    | cons isl rest =>
      rw [hisl] at hlist
      simp only [List.map_cons, List.cons.injEq, Prod.mk.injEq] at hlist
      refine ⟨isl, List.mem_cons_self _ _, ?_, ?_⟩
      · have hh := hlist.1.1
        intro hcon
        rw [hcon] at hh
        simp at hh
      · exact hlist.1.2

/-- C10 witnessed: the success half applied to the concrete empty two-island
world. -/
theorem c10_witness : ∃ w₁, emptyWorld.fill_all_islands = some w₁ :=
  c10_fill_sorted_precondition.1 Nat emptyWorld
    (by
      intro isl hisl
      simp only [emptyWorld, demoWorld, demoIsland, List.mem_cons,
        List.not_mem_nil, or_false] at hisl
      rcases hisl with h | h <;> subst h <;> exact Or.inl rfl)
    (fun s m h => h) (fun s m h => h)
    ⟨by decide, by decide, fun _ => by decide, fun _ => by decide⟩
